import Mathlib

/-!
Shallow embedding of the CollegePortal chat pipeline:
the language detector and canned strings (`languageUtils.ts`),
the retrieval scorer and response composer (`ragUtils.ts`),
and the chat controller (`backend/src/controllers/chatController.ts`).

JavaScript string primitives used by the code (`toLowerCase`, `trim`,
`split(/\s+/)`, `includes`, prefix-anchored regex test) are modelled
as executable functions on `List Char` / `String`.  External calls
(the `franc` statistical language hint and the Hugging Face generative
call) are modelled as explicit outcome parameters, and the two
try/catch boundaries of `processRAGQuery` are modelled as explicit
fault flags, so every escape path of the source is a first-class branch.
Scores and confidences are rationals, mirroring the floating-point
constants 0.1 .. 0.9 of the source exactly (all arithmetic in scope is
decimal with small denominators, so ℚ is exact).
-/

set_option maxRecDepth 100000

namespace CollegePortal

/-- `SupportedLanguage` from `backend/src/types/index.ts`:
ENGLISH = "en", HINDI = "hi", RAJASTHANI = "raj". -/
inductive Lang : Type
  | en
  | hi
  | raj
deriving DecidableEq, Repr

/-! ## JavaScript string primitives -/

/-- Boolean test that `n` is a prefix of `h` (char lists). -/
def isPrefixOfL : List Char → List Char → Bool
  | [], _ => true
  | _ :: _, [] => false
  | a :: as, b :: bs => a == b && isPrefixOfL as bs

/-- Boolean substring containment: JavaScript `hay.includes(needle)`
with the needle given first (char lists). -/
def containsSubL (n : List Char) : List Char → Bool
  | [] => n.isEmpty
  | c :: rest => isPrefixOfL n (c :: rest) || containsSubL n rest

/-- JavaScript `hay.includes(needle)`. -/
def jsIncludes (hay needle : String) : Bool :=
  containsSubL needle.data hay.data

/-- JavaScript `s.startsWith(pre)` (used to model the `^(...)` anchored
regex test of the greeting check). -/
def jsStartsWith (s pre : String) : Bool :=
  isPrefixOfL pre.data s.data

/-- JavaScript `s.toLowerCase()`; `Char.toLower` lowers exactly the
ASCII range, which agrees with `toLowerCase` on all characters the
repository manipulates (ASCII plus Devanagari, which has no case). -/
def toLowerStr (s : String) : String :=
  ⟨s.data.map Char.toLower⟩

/-- Char-list form of JavaScript `trim`: drop leading and trailing
whitespace. -/
def jsTrimData (l : List Char) : List Char :=
  ((l.dropWhile Char.isWhitespace).reverse.dropWhile Char.isWhitespace).reverse

/-- JavaScript `s.trim()`. -/
def jsTrim (s : String) : String :=
  ⟨jsTrimData s.data⟩

/-- Char-list form of JavaScript `s.split(/\s+/)`: pieces between
maximal whitespace runs, keeping the empty boundary pieces JavaScript
produces (`" a".split(/\s+/) = ["", "a"]`, `"".split(/\s+/) = [""]`).
`acc` holds the current piece reversed, `inWs` says whether the walk
is inside a whitespace run. -/
def splitWsAux : List Char → List Char → Bool → List String
  | [], acc, inWs => if inWs then [""] else [⟨acc.reverse⟩]
  | c :: rest, acc, inWs =>
    if c.isWhitespace then
      if inWs then splitWsAux rest acc true
      else ⟨acc.reverse⟩ :: splitWsAux rest [] true
    else
      if inWs then splitWsAux rest [c] false
      else splitWsAux rest (c :: acc) false

/-- JavaScript `s.split(/\s+/)`. -/
def splitWs (s : String) : List String :=
  splitWsAux s.data [] false

/-- Space-joined word list: the shape of a message "consisting only of
words from a keyword list" (single spaces between consecutive words). -/
def joinSpace : List String → String
  | [] => ""
  | [w] => w
  | w :: rest => w ++ " " ++ joinSpace rest

/-! ## Language detector (`languageUtils.ts`) -/

/-- Outcome of the external `franc` statistical-hint call: either a
3-letter code, or a thrown error (the `catch` branch of the source). -/
inductive FrancOutcome : Type
  | ok (code : String)
  | err
deriving DecidableEq, Repr

/-- `ILanguageDetectionResult`. -/
structure LanguageDetectionResult : Type where
  language : Lang
  confidence : ℚ
  alternatives : Option (List (Lang × ℚ))
deriving DecidableEq, Repr

/-- `languagePatterns[HINDI].keywords`. -/
def hindiKeywords : List String :=
  ["मैं", "आप", "क्या", "कैसे", "कहाँ", "कब", "क्यों", "है", "हैं", "था", "थे", "होगा", "होंगे",
   "नमस्ते", "धन्यवाद", "कृपया", "हाँ", "नहीं", "अच्छा", "बुरा", "छात्र", "शिक्षक", "कॉलेज"]

/-- `languagePatterns[RAJASTHANI].keywords` (the source list contains
"राम" twice; the duplicate is kept, as the source counts it twice). -/
def rajasthaniKeywords : List String :=
  ["हूँ", "थारो", "थारी", "क्यूं", "कित्ते", "राम", "राम", "धन्यो", "म्हारो", "म्हारी",
   "राजस्थान", "मारवाड़", "जैसलमेर", "जोधपुर", "उदयपुर", "भाषा", "बोली"]

/-- `languagePatterns[ENGLISH].keywords`. -/
def englishKeywords : List String :=
  ["hello", "hi", "thank", "please", "yes", "no", "good", "bad", "student", "teacher", "college",
   "what", "where", "when", "why", "how", "who", "which", "can", "will", "would", "should"]

def keywordsOf : Lang → List String
  | Lang.en => englishKeywords
  | Lang.hi => hindiKeywords
  | Lang.raj => rajasthaniKeywords

/-- Membership in the `/[ऀ-ॿ]/` Devanagari script range. -/
def isDevanagari (c : Char) : Bool :=
  0x900 ≤ c.toNat && c.toNat ≤ 0x97F

/-- Membership in the `/[a-zA-Z]/` Latin range. -/
def isLatinLetter (c : Char) : Bool :=
  (0x61 ≤ c.toNat && c.toNat ≤ 0x7A) || (0x41 ≤ c.toNat && c.toNat ≤ 0x5A)

/-- `text.match(pattern.script).length`: characters of `text` inside
the language script range (Devanagari is shared by HINDI and
RAJASTHANI in the source). -/
def scriptCount : Lang → String → Nat
  | Lang.en, text => (text.data.filter isLatinLetter).length
  | Lang.hi, text => (text.data.filter isDevanagari).length
  | Lang.raj, text => (text.data.filter isDevanagari).length

/-- `pattern.keywords.filter(k => cleanText.includes(k.toLowerCase())).length`. -/
def keywordCount (l : Lang) (cleanText : String) : Nat :=
  ((keywordsOf l).filter (fun k => jsIncludes cleanText (toLowerStr k))).length

/-- The `francBonus` object: +0.4 when the external hint names the
language; RAJASTHANI never receives a hint bonus. -/
def francScore (code : String) : Lang → ℚ
  | Lang.en => if code = "eng" then 2/5 else 0
  | Lang.hi => if code = "hin" then 2/5 else 0
  | Lang.raj => 0

/-- Script + keyword contribution: `scriptMatches * 0.3 + keywordMatches * 0.7`. -/
def baseScore (text cleanText : String) (l : Lang) : ℚ :=
  (scriptCount l text : ℚ) * (3/10) + (keywordCount l cleanText : ℚ) * (7/10)

/-- Per-language score on the successful-hint path. -/
def okScore (code text cleanText : String) (l : Lang) : ℚ :=
  francScore code l + baseScore text cleanText l

/-- Stable insertion preserving descending key order: the element being
inserted (earlier in the original list) goes before later elements of
equal key, matching JavaScript stable `sort((a,b) => bKey - aKey)`. -/
def insertDescBy {α κ : Type} [LinearOrder κ] (key : α → κ) (x : α) : List α → List α
  | [] => [x]
  | y :: ys => if key x < key y then y :: insertDescBy key x ys else x :: y :: ys

/-- Stable descending sort by a key into a linear order. -/
def sortDescBy {α κ : Type} [LinearOrder κ] (key : α → κ) : List α → List α
  | [] => []
  | x :: xs => insertDescBy key x (sortDescBy key xs)

/-- `Object.entries(scores).sort(([,a],[,b]) => b - a)` followed by the
`confidence: min(score / 10, 1)` mapping (entry order ENGLISH, HINDI,
RAJASTHANI as in the `scores` object literal). -/
def okSorted (code text cleanText : String) : List (Lang × ℚ) :=
  (sortDescBy (fun p => p.2)
    [(Lang.en, okScore code text cleanText Lang.en),
     (Lang.hi, okScore code text cleanText Lang.hi),
     (Lang.raj, okScore code text cleanText Lang.raj)]).map
    (fun p => (p.1, min (p.2 / 10) 1))

/-- `sortedScores[0]`. -/
def okPrimary (code text cleanText : String) : Lang × ℚ :=
  (okSorted code text cleanText).headD (Lang.en, 0)

/-- `sortedScores.slice(1, 3).filter(r => r.confidence > 0.1)`. -/
def okAlternatives (code text cleanText : String) : List (Lang × ℚ) :=
  (((okSorted code text cleanText).drop 1).take 2).filter (fun p => 1/10 < p.2)

/-- `alternatives.length > 0 ? alternatives : undefined`. -/
def okAltOpt (code text cleanText : String) : Option (List (Lang × ℚ)) :=
  if okAlternatives code text cleanText = [] then none
  else some (okAlternatives code text cleanText)

/-- JavaScript `entries.reduce((a, b) => a[1] > b[1] ? a : b)`
(the franc-failure branch picks its best match this way). -/
def reduceMax (a : Lang × ℚ) : List (Lang × ℚ) → Lang × ℚ
  | [] => a
  | b :: rest => reduceMax (if b.2 < a.2 then a else b) rest

/-- `detectLanguage` from `languageUtils.ts`, with the external `franc`
call given as an explicit outcome.  Empty/whitespace-only input returns
{ENGLISH, 0.5}; on the successful-hint path scores are sorted, the
primary is floored to {ENGLISH, 0.5} when its confidence is below 0.2;
on the hint-failure path the best keyword+script match is returned
with no floor and no alternatives. -/
def detectLanguage (fo : FrancOutcome) (text : String) : LanguageDetectionResult :=
  if (jsTrim text).data = [] then ⟨Lang.en, 1/2, none⟩
  else
    let cleanText := jsTrim (toLowerStr text)
    match fo with
    | FrancOutcome.ok code =>
        let primary := okPrimary code text cleanText
        if primary.2 < 1/5 then ⟨Lang.en, 1/2, okAltOpt code text cleanText⟩
        else ⟨primary.1, primary.2, okAltOpt code text cleanText⟩
    | FrancOutcome.err =>
        let best := reduceMax (Lang.en, baseScore text cleanText Lang.en)
          [(Lang.hi, baseScore text cleanText Lang.hi),
           (Lang.raj, baseScore text cleanText Lang.raj)]
        ⟨best.1, min (best.2 / 10) 1, none⟩

/-- `getGreeting` from `languageUtils.ts`. -/
def getGreeting : Lang → String
  | Lang.en => "Hello! I\x27m your college assistant. How can I help you today?"
  | Lang.hi => "नमस्ते! मैं आपका कॉलेज सहायक हूँ। आज मैं आपकी कैसे सहायता कर सकता हूँ?"
  | Lang.raj => "राम राम! हूँ थारो कॉलेज सहायक। आज म्हे थारी कैसी मदद करणी है?"

/-- The error kinds actually used by the code (`getErrorMessage` keys). -/
inductive ErrKind : Type
  | general
  | noContext
  | technical
deriving DecidableEq, Repr

/-- `getErrorMessage` from `languageUtils.ts`. -/
def getErrorMessage : Lang → ErrKind → String
  | Lang.en, ErrKind.general =>
      "I\x27m sorry, I couldn\x27t understand your question. Could you please rephrase it?"
  | Lang.en, ErrKind.noContext =>
      "I don\x27t have enough information to answer that question."
  | Lang.en, ErrKind.technical =>
      "I\x27m experiencing some technical difficulties. Please try again later."
  | Lang.hi, ErrKind.general =>
      "मुझे खुशी है कि आपने पूछा, लेकिन मैं आपका प्रश्न समझ नहीं सका। कृपया इसे दोबारा पूछें।"
  | Lang.hi, ErrKind.noContext =>
      "मेरे पास इस प्रश्न का उत्तर देने के लिए पर्याप्त जानकारी नहीं है।"
  | Lang.hi, ErrKind.technical =>
      "मुझे कुछ तकनीकी समस्याएं आ रही हैं। कृपया बाद में फिर कोशिश करें।"
  | Lang.raj, ErrKind.general =>
      "म्हे खुशी है कि थमने पूछ्यो, पण म्हे थारो सवाल समझ कोनी आयो। कृपया दोबारा पूछो।"
  | Lang.raj, ErrKind.noContext =>
      "म्हारे कैं इस सवाल को जवाब देवण खातर काफी जाणकारी कोनी है।"
  | Lang.raj, ErrKind.technical =>
      "म्हे कुछ तकनीकी दिक्कत आवै रही है। कृपया बाद में फिर कोशिश करो।"

/-! ## Document store and retrieval scorer (`ragUtils.ts`) -/

/-- `IDocumentChunk` (the `lastUpdated` timestamp is kept as its
source-literal date string; it is never consulted by any code in scope). -/
structure DocumentChunk : Type where
  id : String
  content : String
  source : String
  language : Lang
  category : String
  lastUpdated : String
deriving DecidableEq, Repr

/-- The static `collegeDocuments` array from `ragUtils.ts`. -/
def collegeDocuments : List DocumentChunk :=
  [{ id := "admission-en",
     content := "College admission process requires completion of application form, submission of academic transcripts, and entrance exam scores. The admission committee reviews applications based on merit and availability of seats.",
     source := "admission-guidelines", language := Lang.en, category := "admission",
     lastUpdated := "2024-01-15" },
   { id := "fees-en",
     content := "Annual tuition fees are $5000 for undergraduate programs and $7000 for graduate programs. Payment can be made in installments. Scholarships are available for meritorious students.",
     source := "fee-structure", language := Lang.en, category := "fees",
     lastUpdated := "2024-02-01" },
   { id := "library-en",
     content := "The college library is open from 8 AM to 10 PM on weekdays and 9 AM to 6 PM on weekends. Students can borrow up to 5 books at a time. Digital resources are available 24/7.",
     source := "library-rules", language := Lang.en, category := "facilities",
     lastUpdated := "2024-01-20" },
   { id := "admission-hi",
     content := "कॉलेज में प्रवेश के लिए आवेदन पत्र भरना, शैक्षणिक प्रमाण पत्र जमा करना और प्रवेश परीक्षा के अंक आवश्यक हैं। प्रवेश समिति योग्यता और सीटों की उपलब्धता के आधार पर आवेदनों की समीक्षा करती है।",
     source := "admission-guidelines-hindi", language := Lang.hi, category := "admission",
     lastUpdated := "2024-01-15" },
   { id := "fees-hi",
     content := "स्नातक कार्यक्रमों के लिए वार्षिक शिक्षा शुल्क ₹50,000 और स्नातकोत्तर कार्यक्रमों के लिए ₹70,000 है। भुगतान किश्तों में किया जा सकता है। मेधावी छात्रों के लिए छात्रवृत्ति उपलब्ध है।",
     source := "fee-structure-hindi", language := Lang.hi, category := "fees",
     lastUpdated := "2024-02-01" },
   { id := "library-raj",
     content := "कॉलेज री लाइब्रेरी सोमवार सूं शुक्रवार सवेरे 8 बजे सूं रात 10 बजे तक अर शनिवार-रविवार सवेरे 9 बजे सूं शाम 6 बजे तक खुली रैवै है। छात्र एक बारी मैं 5 किताबां ले सकै हैं।",
     source := "library-rules-rajasthani", language := Lang.raj, category := "facilities",
     lastUpdated := "2024-01-20" }]

/-- Token-overlap score of one chunk: the number of query tokens
(duplicates counted) appearing as substrings of the lowercased content
(`queryWords.reduce((acc, w) => acc + (contentWords.includes(w) ? 1 : 0), 0)`). -/
def chunkScore (queryWords : List String) (d : DocumentChunk) : Nat :=
  (queryWords.filter (fun w => jsIncludes (toLowerStr d.content) w)).length

/-- `searchDocuments` from `ragUtils.ts`, parameterised by the store
(the source reads the module-level `collegeDocuments` array, which
`addDocument` may have extended): filter by language, fall back to the
ENGLISH subset when empty, score by token overlap, drop zero scores,
stable-sort descending, return the top 3. -/
def searchDocuments (store : List DocumentChunk) (query : String) (language : Lang) :
    List DocumentChunk :=
  let languageSpecificDocs := store.filter (fun d => d.language == language)
  let searchDocs :=
    if languageSpecificDocs.isEmpty then store.filter (fun d => d.language == Lang.en)
    else languageSpecificDocs
  let queryWords := splitWs (toLowerStr query)
  let scoredDocs := searchDocs.map (fun d => (d, chunkScore queryWords d))
  ((sortDescBy (fun p => p.2) (scoredDocs.filter (fun p => 0 < p.2))).take 3).map (fun p => p.1)

/-! ## Response composer (`ragUtils.ts`) -/

/-- Outcome of the external Hugging Face `textGeneration` call: a
generated text, or a thrown API error (network/API failure). -/
inductive HfOutcome : Type
  | ok (generated : String)
  | err
deriving DecidableEq, Repr

/-- The language-keyed prefix strings of the template fallback
(`responses` object in `generateFallbackResponse`). -/
def fallbackPrefix : Lang → String
  | Lang.en => "Based on the information I have: "
  | Lang.hi => "उपलब्ध जानकारी के आधार पर: "
  | Lang.raj => "उपलब्ध जाणकारी के आधार पर: "

/-- `generateFallbackResponse` from `ragUtils.ts`: the canned
no-context message when the context list is empty, otherwise the
language-specific prefix concatenated with `context[0]` only. -/
def generateFallbackResponse (query : String) (context : List String) (language : Lang) :
    String :=
  match context with
  | [] => getErrorMessage language ErrKind.noContext
  | contextSummary :: _ =>
    match language with
    | Lang.en => "Based on the information I have: " ++ contextSummary
    | Lang.hi => "उपलब्ध जानकारी के आधार पर: " ++ contextSummary
    | Lang.raj => "उपलब्ध जाणकारी के आधार पर: " ++ contextSummary

/-- `generateContextualResponse` from `ragUtils.ts`: use the generated
text when the external call succeeds with non-empty output
(`response.generated_text || fallback`), otherwise degrade to the
template fallback.  The API error is caught locally and never
propagates. -/
def generateContextualResponse (hfO : HfOutcome) (query : String) (context : List String)
    (language : Lang) : String :=
  match hfO with
  | HfOutcome.ok generated =>
      if generated.data = [] then generateFallbackResponse query context language
      else generated
  | HfOutcome.err => generateFallbackResponse query context language

/-- `IRAGResult`. -/
structure RAGResult : Type where
  answer : String
  context : List String
  confidence : ℚ
  sources : List String
  language : Lang
deriving DecidableEq, Repr

/-- The `catch` payload of `processRAGQuery`: technical-difficulty
answer in the best-known language with confidence 0.1. -/
def ragTechnicalResult (fallbackLanguage : Lang) : RAGResult :=
  { answer := getErrorMessage fallbackLanguage ErrKind.technical,
    context := [], confidence := 1/10, sources := [], language := fallbackLanguage }

/-- `userLanguage || detectLanguage(query).language` inside
`processRAGQuery`. -/
def ragDetectedLanguage (fo : FrancOutcome) (query : String) (userLanguage : Option Lang) :
    Lang :=
  match userLanguage with
  | some l => l
  | none => (detectLanguage fo query).language

/-- `processRAGQuery` from `ragUtils.ts`.  `searchFault` / `composeFault`
model an exception escaping the retrieval step (respectively the
composition step) past its own internal catch blocks; either one lands
in the pipeline-boundary `catch`, which answers with the
technical-difficulty message in `userLanguage || ENGLISH` at confidence
0.1.  With no escaped fault: zero retrieved docs short-circuit to the
canned no-context answer at confidence 0.1; otherwise the composer runs
and confidence is `min(0.3 + 0.2 * docs, 0.9)`. -/
def processRAGQuery (store : List DocumentChunk) (fo : FrancOutcome) (hfO : HfOutcome)
    (searchFault composeFault : Bool) (query : String) (userLanguage : Option Lang) :
    RAGResult :=
  if searchFault then ragTechnicalResult (userLanguage.getD Lang.en)
  else
    let detectedLanguage := ragDetectedLanguage fo query userLanguage
    let relevantDocs := searchDocuments store query detectedLanguage
    if relevantDocs.isEmpty then
      { answer := getErrorMessage detectedLanguage ErrKind.noContext,
        context := [], confidence := 1/10, sources := [], language := detectedLanguage }
    else if composeFault then ragTechnicalResult (userLanguage.getD Lang.en)
    else
      { answer := generateContextualResponse hfO query (relevantDocs.map (fun d => d.content))
          detectedLanguage,
        context := relevantDocs.map (fun d => d.content),
        confidence := min ((3:ℚ)/10 + (relevantDocs.length : ℚ) * (2/10)) (9/10),
        sources := relevantDocs.map (fun d => d.source),
        language := detectedLanguage }

/-! ## Chat controller (`chatController.ts`) -/

/-- `IChatRequest` (the body that passed express-validator). -/
structure ChatRequest : Type where
  message : String
  language : Option Lang
  sessionId : Option String
deriving DecidableEq, Repr

/-- The persisted `ChatMessage` document (`IChatMessage`), without the
wall-clock `responseTime` / `createdAt` fields, which no claim in scope
can observe. -/
structure ChatExchange : Type where
  userId : String
  message : String
  response : String
  language : Lang
  confidence : ℚ
  isFromRAG : Bool
  context : List String
  sessionId : String
deriving DecidableEq, Repr

/-- The HTTP 200 payload of `processChatMessage`. -/
structure ChatResponse : Type where
  response : String
  language : Lang
  confidence : ℚ
  sessionId : String
  sources : Option (List String)
deriving DecidableEq, Repr

/-- One completed chat turn: the persisted exchange and the returned
payload. -/
structure TurnOutcome : Type where
  saved : ChatExchange
  resp : ChatResponse
deriving DecidableEq, Repr

/-- The `validateChatMessage` middleware on `/api/chat/message`:
`body("message").trim().isLength({ min: 1, max: 1000 })`. -/
def validChatMessage (message : String) : Bool :=
  1 ≤ (jsTrim message).data.length && (jsTrim message).data.length ≤ 1000

/-- The greeting tokens of the anchored case-insensitive regex
`/^(hi|hello|hey|namaste|राम राम|नमस्ते)/i` in `processChatMessage`. -/
def greetingTokens : List String :=
  ["hi", "hello", "hey", "namaste", "राम राम", "नमस्ते"]

/-- `/^(hi|hello|hey|namaste|राम राम|नमस्ते)/i.test(message.trim())`:
some greeting token is a case-insensitive prefix of the trimmed
message (no word boundary is required after the token). -/
def isGreeting (message : String) : Bool :=
  greetingTokens.any (fun t => jsStartsWith (toLowerStr (jsTrim message)) (toLowerStr t))

/-- `language || detectLanguage(message).language` in the controller. -/
def resolveLanguage (fo : FrancOutcome) (req : ChatRequest) : Lang :=
  match req.language with
  | some l => l
  | none => (detectLanguage fo req.message).language

/-- `processChatMessage` from `chatController.ts`, for a request that
passed validation.  `freshSid` stands for the `generateSessionId()`
value used when the caller supplied none.  Greeting messages
short-circuit with confidence 0.9, `isFromRAG: false` and empty
context; every other message goes through `processRAGQuery`.  Both
paths persist one `ChatExchange` and return its data. -/
def processChatMessage (store : List DocumentChunk) (fo : FrancOutcome) (hfO : HfOutcome)
    (searchFault composeFault : Bool) (freshSid : String) (req : ChatRequest)
    (userIdOpt : Option String) : TurnOutcome :=
  let userId := userIdOpt.getD "anonymous"
  let detectedLanguage := resolveLanguage fo req
  let sid := req.sessionId.getD freshSid
  if isGreeting req.message then
    let greeting := getGreeting detectedLanguage
    { saved := { userId, message := jsTrim req.message, response := greeting,
                 language := detectedLanguage, confidence := 9/10, isFromRAG := false,
                 context := [], sessionId := sid },
      resp := { response := greeting, language := detectedLanguage, confidence := 9/10,
                sessionId := sid, sources := none } }
  else
    let ragResult := processRAGQuery store fo hfO searchFault composeFault req.message
      (some detectedLanguage)
    { saved := { userId, message := jsTrim req.message, response := ragResult.answer,
                 language := ragResult.language, confidence := ragResult.confidence,
                 isFromRAG := true, context := ragResult.context, sessionId := sid },
      resp := { response := ragResult.answer, language := ragResult.language,
                confidence := ragResult.confidence, sessionId := sid,
                sources := some ragResult.sources } }

/-- The Mongo `deleteMany` filter of `clearChatHistory`: `{ userId }`,
plus `{ sessionId }` when one was supplied. -/
def clearMatches (userId : String) (sessionId : Option String) (m : ChatExchange) : Bool :=
  m.userId == userId &&
    (match sessionId with
     | none => true
     | some s => m.sessionId == s)

/-- `clearChatHistory` from `chatController.ts` over a list-modelled
exchange store: returns the surviving store and `deletedCount`. -/
def clearChatHistory (store : List ChatExchange) (userId : String)
    (sessionId : Option String) : List ChatExchange × Nat :=
  (store.filter (fun m => !clearMatches userId sessionId m),
   (store.filter (fun m => clearMatches userId sessionId m)).length)

/-! ## Lemmas about the stable descending sort -/

theorem mem_insertDescBy {α κ : Type} [LinearOrder κ] (key : α → κ) (x a : α)
    (l : List α) : a ∈ insertDescBy key x l ↔ a = x ∨ a ∈ l := by
  induction l with
  | nil => simp [insertDescBy]
  | cons y ys ih =>
    simp only [insertDescBy]
    split
    · simp only [List.mem_cons, ih]
      tauto
    · simp only [List.mem_cons]

theorem mem_sortDescBy {α κ : Type} [LinearOrder κ] (key : α → κ) (a : α)
    (l : List α) : a ∈ sortDescBy key l ↔ a ∈ l := by
  induction l with
  | nil => simp [sortDescBy]
  | cons x xs ih => simp [sortDescBy, mem_insertDescBy, ih]

theorem pairwise_insertDescBy {α κ : Type} [LinearOrder κ] (key : α → κ) (x : α)
    (l : List α) (h : l.Pairwise (fun a b => key b ≤ key a)) :
    (insertDescBy key x l).Pairwise (fun a b => key b ≤ key a) := by
  induction l with
  | nil => simp [insertDescBy]
  | cons y ys ih =>
    rw [List.pairwise_cons] at h
    simp only [insertDescBy]
    split
    · rename_i hlt
      rw [List.pairwise_cons]
      refine ⟨?_, ih h.2⟩
      intro b hb
      rcases (mem_insertDescBy key x b ys).mp hb with hb | hb
      · exact hb ▸ le_of_lt hlt
      · exact h.1 b hb
    · rename_i hge
      rw [List.pairwise_cons]
      refine ⟨?_, List.pairwise_cons.mpr h⟩
      intro b hb
      rcases List.mem_cons.mp hb with hb | hb
      · exact hb ▸ le_of_not_lt hge
      · exact le_trans (h.1 b hb) (le_of_not_lt hge)

theorem pairwise_sortDescBy {α κ : Type} [LinearOrder κ] (key : α → κ)
    (l : List α) : (sortDescBy key l).Pairwise (fun a b => key b ≤ key a) := by
  induction l with
  | nil => simp [sortDescBy]
  | cons x xs ih => exact pairwise_insertDescBy key x _ ih

/-- Elements surviving the score-filter / sort / take-3 chain carry
their own chunk score in the second component. -/
theorem snd_eq_score_of_mem {α : Type} (f : α → Nat) (pr : α × Nat → Bool) (l : List α)
    (p : α × Nat)
    (hp : p ∈ (sortDescBy (fun q : α × Nat => q.2) ((l.map (fun d => (d, f d))).filter pr)).take 3) :
    p.2 = f p.1 := by
  have h1 := List.mem_of_mem_take hp
  rw [mem_sortDescBy, List.mem_filter] at h1
  rcases List.mem_map.mp h1.1 with ⟨d, _, rfl⟩
  rfl

/-- Members of a search result were scored positive and drawn from the
language-filtered (or English-fallback) sublist of the store. -/
theorem mem_searchDocuments (store : List DocumentChunk) (query : String) (L : Lang)
    (c : DocumentChunk) (hc : c ∈ searchDocuments store query L) :
    0 < chunkScore (splitWs (toLowerStr query)) c ∧
    c ∈ (if (store.filter (fun d => d.language == L)).isEmpty = true then
          store.filter (fun d => d.language == Lang.en)
        else store.filter (fun d => d.language == L)) := by
  unfold searchDocuments at hc
  simp only [List.mem_map] at hc
  obtain ⟨p, hp, rfl⟩ := hc
  have hsnd := snd_eq_score_of_mem _ _ _ p hp
  have h1 := List.mem_of_mem_take hp
  rw [mem_sortDescBy, List.mem_filter] at h1
  have hpos : 0 < p.2 := by simpa using h1.2
  refine ⟨hsnd ▸ hpos, ?_⟩
  rcases List.mem_map.mp h1.1 with ⟨d, hd, hde⟩
  have : d = p.1 := congrArg Prod.fst hde
  subst this
  split at hd <;> rename_i hsplit
  · rw [if_pos hsplit]; exact hd
  · rw [if_neg hsplit]; exact hd

/-- C4: `search(q, L)` returns at most 3 chunks; each returned chunk
has language L, except that when the store holds no chunk of language L
every returned chunk has language ENGLISH (the fallback subset). -/
theorem c4_search_top3_language (store : List DocumentChunk) (query : String) (L : Lang) :
    (searchDocuments store query L).length ≤ 3 ∧
    ∀ c ∈ searchDocuments store query L,
      c.language = if store.any (fun d => d.language == L) then L else Lang.en := by
  constructor
  · unfold searchDocuments
    simp only [List.length_map]
    exact List.length_take_le 3 _
  · intro c hc
    have h := (mem_searchDocuments store query L c hc).2
    by_cases hany : store.any (fun d => d.language == L) = true
    · have hne : ¬(store.filter (fun d => d.language == L)).isEmpty = true := by
        intro hemp
        rcases List.any_eq_true.mp hany with ⟨d, hd, hdl⟩
        exact (List.filter_eq_nil_iff.mp (List.isEmpty_iff.mp hemp)) d hd hdl
      rw [if_neg hne] at h
      rw [if_pos hany]
      exact eq_of_beq (List.mem_filter.mp h).2
    · have hnil : store.filter (fun d => d.language == L) = [] := by
        rw [List.filter_eq_nil_iff]
        intro d hd hdl
        exact hany (List.any_eq_true.mpr ⟨d, hd, hdl⟩)
      rw [if_pos (by rw [hnil]; rfl)] at h
      rw [if_neg hany]
      exact eq_of_beq (List.mem_filter.mp h).2

/-- C4 witness: a Rajasthani query over the sample store returns the
Rajasthani library chunk. -/
theorem c4_search_top3_language_witness :
    (searchDocuments collegeDocuments "कॉलेज" Lang.raj).length ≤ 3 ∧
    (collegeDocuments.get ⟨5, by decide⟩).language =
      (if collegeDocuments.any (fun d => d.language == Lang.raj) then Lang.raj else Lang.en) :=
  ⟨(c4_search_top3_language collegeDocuments "कॉलेज" Lang.raj).1,
   (c4_search_top3_language collegeDocuments "कॉलेज" Lang.raj).2 _ (by decide)⟩

/-- C5: the search result is sorted by descending token-overlap score,
and no zero-score chunk appears in it. -/
theorem c5_search_sorted_positive (store : List DocumentChunk) (query : String) (L : Lang) :
    (searchDocuments store query L).Pairwise (fun a b =>
      chunkScore (splitWs (toLowerStr query)) b ≤ chunkScore (splitWs (toLowerStr query)) a) ∧
    ∀ c ∈ searchDocuments store query L, 0 < chunkScore (splitWs (toLowerStr query)) c := by
  constructor
  · unfold searchDocuments
    rw [List.pairwise_map]
    have hsorted := pairwise_sortDescBy (fun q : DocumentChunk × Nat => q.2)
      (((if (store.filter (fun d => d.language == L)).isEmpty = true then
            store.filter (fun d => d.language == Lang.en)
          else store.filter (fun d => d.language == L)).map
          (fun d => (d, chunkScore (splitWs (toLowerStr query)) d))).filter
        (fun p => decide (0 < p.2)))
    have htake := List.Pairwise.sublist (List.take_sublist 3 _) hsorted
    refine List.Pairwise.imp_of_mem ?_ htake
    intro p q hp hq hle
    rw [snd_eq_score_of_mem _ _ _ p hp, snd_eq_score_of_mem _ _ _ q hq] at hle
    exact hle
  · intro c hc
    exact (mem_searchDocuments store query L c hc).1

/-- C5 witness: the admission chunk appears in the result of an
overlapping English query with positive score. -/
theorem c5_search_sorted_positive_witness :
    0 < chunkScore (splitWs (toLowerStr "college admission process"))
      (collegeDocuments.get ⟨0, by decide⟩) :=
  (c5_search_sorted_positive collegeDocuments "college admission process" Lang.en).2 _
    (by decide)

/-- C8: with a non-empty context list, the template fallback is exactly
the language-specific prefix concatenated with the first snippet only,
independent of all later context elements. -/
theorem c8_fallback_prefix_first (query : String) (language : Lang) (c : String)
    (rest : List String) :
    generateFallbackResponse query (c :: rest) language = fallbackPrefix language ++ c := by
  cases language <;> rfl

/-- C9: `clearHistory` scoped to a session deletes exactly the calling
user's exchanges of that session (count returned), keeps everything
else; with no session it deletes exactly all of the user's exchanges. -/
theorem c9_clear_history_exact (store : List ChatExchange) (U S : String) :
    ((clearChatHistory store U (some S)).1 =
        store.filter (fun m => !(m.userId == U && m.sessionId == S)) ∧
      (clearChatHistory store U (some S)).2 =
        store.countP (fun m => m.userId == U && m.sessionId == S) ∧
      (∀ m ∈ (clearChatHistory store U (some S)).1,
        m ∈ store ∧ ¬(m.userId = U ∧ m.sessionId = S)) ∧
      (∀ m ∈ store, ¬(m.userId = U ∧ m.sessionId = S) →
        m ∈ (clearChatHistory store U (some S)).1)) ∧
    ((clearChatHistory store U none).1 = store.filter (fun m => !(m.userId == U)) ∧
      (clearChatHistory store U none).2 = store.countP (fun m => m.userId == U) ∧
      ∀ m ∈ store, m.userId ≠ U → m ∈ (clearChatHistory store U none).1) := by
  have hm : ∀ m : ChatExchange,
      clearMatches U (some S) m = (m.userId == U && m.sessionId == S) := by
    intro m; rfl
  have hn : ∀ m : ChatExchange, clearMatches U none m = (m.userId == U) := by
    intro m; simp [clearMatches]
  refine ⟨⟨?_, ?_, ?_, ?_⟩, ?_, ?_, ?_⟩
  · simp [clearChatHistory, hm]
  · simp [clearChatHistory, hm, List.countP_eq_length_filter]
  · intro m hmem
    simp only [clearChatHistory, List.mem_filter, hm] at hmem
    refine ⟨hmem.1, ?_⟩
    intro ⟨h1, h2⟩
    simp [h1, h2] at hmem
  · intro m hmem hnot
    simp only [clearChatHistory, List.mem_filter, hm]
    refine ⟨hmem, ?_⟩
    rcases not_and_or.mp hnot with h | h <;> simp [beq_iff_eq, h]
  · simp [clearChatHistory, hn]
  · simp [clearChatHistory, hn, List.countP_eq_length_filter]
  · intro m hmem hne
    simp only [clearChatHistory, List.mem_filter, hn]
    exact ⟨hmem, by simp [hne]⟩

/-- C9 witness: clearing user u1 session s1 keeps the exchange of the
other user and session. -/
theorem c9_clear_history_exact_witness :
    (⟨"u2", "m", "r", Lang.en, 1, true, [], "s2"⟩ : ChatExchange) ∈
      (clearChatHistory
        [⟨"u1", "a", "b", Lang.en, 1, true, [], "s1"⟩,
         ⟨"u2", "m", "r", Lang.en, 1, true, [], "s2"⟩] "u1" (some "s1")).1 :=
  ((c9_clear_history_exact
      [⟨"u1", "a", "b", Lang.en, 1, true, [], "s1"⟩,
       ⟨"u2", "m", "r", Lang.en, 1, true, [], "s2"⟩] "u1" "s1").1.2.2.2)
    _ (List.mem_cons_of_mem _ (List.mem_cons_self _ _))
    (by intro h; exact absurd h.1 (by decide))

/-- C1 (amended): when retrieval finds zero snippets, `processRAGQuery`
returns the canned no-context answer in the resolved language with an
empty context list — at confidence 0.1, the same early-return constant
as the failure path, not the 0.3 the snippet-count formula would give. -/
theorem c1_zero_snippet_result (store : List DocumentChunk) (fo : FrancOutcome)
    (hfO : HfOutcome) (query : String) (uL : Option Lang)
    (h : searchDocuments store query (ragDetectedLanguage fo query uL) = []) :
    processRAGQuery store fo hfO false false query uL =
      { answer := getErrorMessage (ragDetectedLanguage fo query uL) ErrKind.noContext,
        context := [], confidence := 1/10, sources := [],
        language := ragDetectedLanguage fo query uL } := by
  unfold processRAGQuery
  simp [h]

/-- C1 witness: the gibberish query resolves to the English no-context
answer with confidence 0.1 and empty context. -/
theorem c1_zero_snippet_result_witness :
    processRAGQuery collegeDocuments (FrancOutcome.ok "eng") HfOutcome.err false false
        "asdkjasdlk random gibberish" (some Lang.en) =
      { answer := getErrorMessage Lang.en ErrKind.noContext, context := [],
        confidence := 1/10, sources := [], language := Lang.en } :=
  c1_zero_snippet_result collegeDocuments (FrancOutcome.ok "eng") HfOutcome.err
    "asdkjasdlk random gibberish" (some Lang.en) (by decide)

/-- C1 counterexample: on the zero-snippet turn of end-to-end scenario 3
the code returns confidence 0.1, not the 0.3 zero-snippet floor the
claim states. -/
theorem c1_zero_snippet_counterexample :
    searchDocuments collegeDocuments "asdkjasdlk random gibberish" Lang.en = [] ∧
    (processRAGQuery collegeDocuments FrancOutcome.err HfOutcome.err false false
        "asdkjasdlk random gibberish" (some Lang.en)).confidence ≠ 3/10 := by
  refine ⟨by decide, ?_⟩
  have h : (processRAGQuery collegeDocuments FrancOutcome.err HfOutcome.err false false
      "asdkjasdlk random gibberish" (some Lang.en)).confidence = 1/10 := by
    unfold processRAGQuery
    simp [show searchDocuments collegeDocuments "asdkjasdlk random gibberish"
      (ragDetectedLanguage FrancOutcome.err "asdkjasdlk random gibberish" (some Lang.en)) = []
      from by decide]
  rw [h]
  norm_num

/-- C7: on the successful external-hint path with non-empty input, a
primary confidence below 0.2 forces {ENGLISH, 0.5} while the computed
runner-up alternatives are kept. -/
theorem c7_low_primary_floor (code text : String)
    (hne : (jsTrim text).data ≠ [])
    (hlow : (okPrimary code text (jsTrim (toLowerStr text))).2 < 1/5) :
    detectLanguage (FrancOutcome.ok code) text =
      ⟨Lang.en, 1/2, okAltOpt code text (jsTrim (toLowerStr text))⟩ := by
  unfold detectLanguage
  rw [if_neg hne]
  simp only [hlow, if_pos]

/-- Concrete evaluation: the all-zero scores of the input "." give an
ENGLISH primary of confidence 0. -/
theorem okPrimary_dot_eval : okPrimary "und" "." (jsTrim (toLowerStr ".")) = (Lang.en, 0) := by
  have h1 : scriptCount Lang.en "." = 0 := rfl
  have h2 : scriptCount Lang.hi "." = 0 := rfl
  have h3 : scriptCount Lang.raj "." = 0 := rfl
  have h4 : keywordCount Lang.en (jsTrim (toLowerStr ".")) = 0 := rfl
  have h5 : keywordCount Lang.hi (jsTrim (toLowerStr ".")) = 0 := rfl
  have h6 : keywordCount Lang.raj (jsTrim (toLowerStr ".")) = 0 := rfl
  unfold okPrimary okSorted okScore baseScore francScore
  rw [h1, h2, h3, h4, h5, h6,
    if_neg (by decide : ¬("und" = "eng")), if_neg (by decide : ¬("und" = "hin"))]
  norm_num [sortDescBy, insertDescBy, min_def]

/-- C7 witness: the input "." with hint code "und" lands on the floor. -/
theorem c7_low_primary_floor_witness :
    detectLanguage (FrancOutcome.ok "und") "." =
      ⟨Lang.en, 1/2, okAltOpt "und" "." (jsTrim (toLowerStr "."))⟩ :=
  c7_low_primary_floor "und" "." (by decide)
    (by rw [okPrimary_dot_eval]; norm_num)

/-- C3: a valid greeting message short-circuits the pipeline: the
answer is the resolved-language greeting at confidence exactly 0.9,
`isFromRAG` is false, the persisted context is empty, and the outcome
is independent of the store, the generative call and the fault flags
(retrieval and composition are never invoked). -/
theorem c3_greeting_short_circuit (store : List DocumentChunk) (fo : FrancOutcome)
    (hfO : HfOutcome) (sF cF : Bool) (freshSid : String) (req : ChatRequest)
    (uid : Option String) (hvalid : validChatMessage req.message = true)
    (hg : isGreeting req.message = true) :
    (processChatMessage store fo hfO sF cF freshSid req uid).resp.response =
        getGreeting (resolveLanguage fo req) ∧
    (processChatMessage store fo hfO sF cF freshSid req uid).resp.confidence = 9/10 ∧
    (processChatMessage store fo hfO sF cF freshSid req uid).saved.isFromRAG = false ∧
    (processChatMessage store fo hfO sF cF freshSid req uid).saved.context = [] ∧
    ∀ (store2 : List DocumentChunk) (hfO2 : HfOutcome) (sF2 cF2 : Bool),
      processChatMessage store2 fo hfO2 sF2 cF2 freshSid req uid =
        processChatMessage store fo hfO sF cF freshSid req uid := by
  unfold processChatMessage
  simp [hg]

/-- C3 witness: "Hello!" with requested language en short-circuits at
confidence 0.9. -/
theorem c3_greeting_short_circuit_witness :
    (processChatMessage collegeDocuments (FrancOutcome.ok "eng") HfOutcome.err false false
        "session_1_abc" ⟨"Hello!", some Lang.en, none⟩ none).resp.confidence = 9/10 :=
  (c3_greeting_short_circuit collegeDocuments (FrancOutcome.ok "eng") HfOutcome.err
    false false "session_1_abc" ⟨"Hello!", some Lang.en, none⟩ none
    (by decide) (by decide)).2.1

/-- C10: a greeting token that is merely a case-insensitive prefix of a
longer first word still triggers the greeting short-circuit (the regex
has no word boundary), returning the canned greeting at confidence 0.9
instead of performing retrieval. -/
theorem c10_greeting_prefix_match (store : List DocumentChunk) (fo : FrancOutcome)
    (hfO : HfOutcome) (sF cF : Bool) (freshSid : String) (req : ChatRequest)
    (uid : Option String) (hvalid : validChatMessage req.message = true)
    (t : String) (ht : t ∈ greetingTokens)
    (hpre : jsStartsWith (toLowerStr (jsTrim req.message)) (toLowerStr t) = true) :
    (processChatMessage store fo hfO sF cF freshSid req uid).resp.response =
        getGreeting (resolveLanguage fo req) ∧
    (processChatMessage store fo hfO sF cF freshSid req uid).resp.confidence = 9/10 ∧
    (processChatMessage store fo hfO sF cF freshSid req uid).saved.isFromRAG = false := by
  have hg : isGreeting req.message = true :=
    List.any_eq_true.mpr ⟨t, ht, hpre⟩
  unfold processChatMessage
  simp [hg]

/-- C10 witness: "history of the library" begins with the token "hi"
inside a longer word and is answered as a greeting. -/
theorem c10_greeting_prefix_match_witness :
    (processChatMessage collegeDocuments (FrancOutcome.ok "eng") HfOutcome.err false false
        "session_1_abc" ⟨"history of the library", some Lang.en, none⟩ none).resp.confidence =
      9/10 :=
  (c10_greeting_prefix_match collegeDocuments (FrancOutcome.ok "eng") HfOutcome.err
    false false "session_1_abc" ⟨"history of the library", some Lang.en, none⟩ none
    (by decide) "hi" (by decide) (by decide)).2.1

/-- C2: an exception escaping the retrieval or composition step is
contained at the pipeline boundary: the turn still persists one normal
exchange carrying the technical-difficulty answer in the resolved
("best-known") language at confidence 0.1, `isFromRAG` stays true, and
the returned payload mirrors the persisted exchange — no raw error
reaches the caller. -/
theorem c2_fault_containment (store : List DocumentChunk) (fo : FrancOutcome)
    (hfO : HfOutcome) (sF cF : Bool) (freshSid : String) (req : ChatRequest)
    (uid : Option String) (hvalid : validChatMessage req.message = true)
    (hng : isGreeting req.message = false)
    (hfault : sF = true ∨ (cF = true ∧
      searchDocuments store req.message (resolveLanguage fo req) ≠ [])) :
    (processChatMessage store fo hfO sF cF freshSid req uid).saved.response =
        getErrorMessage (resolveLanguage fo req) ErrKind.technical ∧
    (processChatMessage store fo hfO sF cF freshSid req uid).saved.confidence = 1/10 ∧
    (processChatMessage store fo hfO sF cF freshSid req uid).saved.language =
        resolveLanguage fo req ∧
    (processChatMessage store fo hfO sF cF freshSid req uid).saved.isFromRAG = true ∧
    (processChatMessage store fo hfO sF cF freshSid req uid).resp.response =
        (processChatMessage store fo hfO sF cF freshSid req uid).saved.response ∧
    (processChatMessage store fo hfO sF cF freshSid req uid).resp.confidence = 1/10 := by
  have key : processRAGQuery store fo hfO sF cF req.message (some (resolveLanguage fo req)) =
      ragTechnicalResult (resolveLanguage fo req) := by
    rcases hfault with hsf | ⟨hcf, hne⟩
    · unfold processRAGQuery
      rw [hsf]
      simp
    · cases sF
      · unfold processRAGQuery
        have hie : (searchDocuments store req.message
            (ragDetectedLanguage fo req.message (some (resolveLanguage fo req)))).isEmpty =
            false := by
          rw [List.isEmpty_eq_false_iff_exists_mem]
          rcases List.exists_mem_of_ne_nil _ hne with ⟨c, hc⟩
          exact ⟨c, hc⟩
        simp [hie, hcf]
      · unfold processRAGQuery
        simp
  unfold processChatMessage
  simp [hng, key, ragTechnicalResult]

/-- C2 witness: a retrieval-step fault on a valid non-greeting message
persists the English technical-difficulty exchange at confidence 0.1. -/
theorem c2_fault_containment_witness :
    (processChatMessage collegeDocuments (FrancOutcome.ok "eng") HfOutcome.err true false
        "session_1_abc" ⟨"what are the college fees", some Lang.en, none⟩ none).saved.confidence =
      1/10 :=
  (c2_fault_containment collegeDocuments (FrancOutcome.ok "eng") HfOutcome.err true false
    "session_1_abc" ⟨"what are the college fees", some Lang.en, none⟩ none
    (by decide) (by decide) (Or.inl rfl)).2.1

end CollegePortal

namespace CollegePortal

theorem isPrefixOfL_iff : ∀ (n h : List Char), isPrefixOfL n h = true ↔ ∃ t, h = n ++ t := by
  intro n
  induction n with
  | nil => intro h; simpa [isPrefixOfL] using ⟨h, rfl⟩
  | cons a as ih =>
    intro h
    cases h with
    | nil =>
      simp [isPrefixOfL]
    | cons b bs =>
      simp only [isPrefixOfL, Bool.and_eq_true, beq_iff_eq]
      constructor
      · rintro ⟨rfl, hp⟩
        rcases (ih bs).mp hp with ⟨t, rfl⟩
        exact ⟨t, rfl⟩
      · rintro ⟨t, ht⟩
        injection ht with h1 h2
        subst h1
        exact ⟨rfl, (ih bs).mpr ⟨t, h2⟩⟩

theorem containsSubL_iff (n : List Char) : ∀ h : List Char,
    containsSubL n h = true ↔ ∃ p t, h = p ++ n ++ t := by
  intro h
  induction h with
  | nil =>
    simp only [containsSubL, List.isEmpty_iff]
    constructor
    · rintro rfl; exact ⟨[], [], rfl⟩
    · rintro ⟨p, t, ht⟩
      have h1 := List.append_eq_nil.mp ht.symm
      exact (List.append_eq_nil.mp h1.1).2
  | cons c rest ih =>
    simp only [containsSubL, Bool.or_eq_true, isPrefixOfL_iff, ih]
    constructor
    · rintro (⟨t, ht⟩ | ⟨p, t, ht⟩)
      · exact ⟨[], t, by simpa using ht⟩
      · exact ⟨c :: p, t, by simp [ht]⟩
    · rintro ⟨p, t, hp⟩
      cases p with
      | nil =>
        exact Or.inl ⟨t, by simpa using hp⟩
      | cons q qs =>
        injection hp with h1 h2
        exact Or.inr ⟨qs, t, h2⟩

end CollegePortal

namespace CollegePortal

theorem containsSubL_self_part (n p t : List Char) : containsSubL n (p ++ n ++ t) = true :=
  (containsSubL_iff n _).mpr ⟨p, t, rfl⟩

theorem isPrefixOfL_split : ∀ (n x y : List Char) (s : Char), s ∉ n →
    isPrefixOfL n (x ++ s :: y) = true → isPrefixOfL n x = true := by
  intro n
  induction n with
  | nil => intros; rfl
  | cons a as ih =>
    intro x y s hs hp
    cases x with
    | nil =>
      simp only [List.nil_append, isPrefixOfL, Bool.and_eq_true, beq_iff_eq] at hp
      exact absurd (hp.1 ▸ List.mem_cons_self a as) hs
    | cons b bs =>
      simp only [List.cons_append, isPrefixOfL, Bool.and_eq_true] at hp ⊢
      exact ⟨hp.1, ih bs y s (fun hm => hs (List.mem_cons_of_mem a hm)) hp.2⟩

theorem containsSubL_split : ∀ (x n y : List Char) (s : Char), s ∉ n →
    containsSubL n (x ++ s :: y) = true →
    containsSubL n x = true ∨ containsSubL n y = true := by
  intro x
  induction x with
  | nil =>
    intro n y s hs h
    simp only [List.nil_append, containsSubL, Bool.or_eq_true] at h
    rcases h with h | h
    · cases n with
      | nil => exact Or.inl rfl
      | cons a as =>
        simp only [isPrefixOfL, Bool.and_eq_true, beq_iff_eq] at h
        exact absurd (h.1 ▸ List.mem_cons_self a as) hs
    · exact Or.inr h
  | cons b bs ih =>
    intro n y s hs h
    simp only [List.cons_append, containsSubL, Bool.or_eq_true] at h
    rcases h with h | h
    · refine Or.inl ?_
      simp only [containsSubL, Bool.or_eq_true]
      exact Or.inl (isPrefixOfL_split n (b :: bs) y s hs (by simpa using h))
    · rcases ih n y s hs h with h2 | h2
      · refine Or.inl ?_
        simp only [containsSubL, Bool.or_eq_true]
        exact Or.inr h2
      · exact Or.inr h2

theorem joinSpace_data_cons (w x : String) (ws : List String) :
    (joinSpace (w :: x :: ws)).data = w.data ++ ' ' :: (joinSpace (x :: ws)).data := by
  show (w ++ " " ++ joinSpace (x :: ws)).data = _
  simp [String.data_append]

theorem containsSubL_joinSpace_of_mem : ∀ (ws : List String) (w : String), w ∈ ws →
    containsSubL w.data (joinSpace ws).data = true := by
  intro ws
  induction ws with
  | nil => intro w hw; cases hw
  | cons x rest ih =>
    intro w hw
    cases rest with
    | nil =>
      rcases List.mem_singleton.mp hw with rfl
      exact (containsSubL_iff _ _).mpr ⟨[], [], by simp [joinSpace]⟩
    | cons y rest2 =>
      rw [joinSpace_data_cons]
      rcases List.mem_cons.mp hw with rfl | hw2
      · exact (containsSubL_iff _ _).mpr ⟨[], ' ' :: (joinSpace (y :: rest2)).data, by simp⟩
      · rcases (containsSubL_iff _ _).mp (ih w hw2) with ⟨p, t, hpt⟩
        exact (containsSubL_iff _ _).mpr ⟨x.data ++ ' ' :: p, t, by simp [hpt]⟩

theorem containsSubL_joinSpace_split : ∀ (ws : List String) (n : List Char),
    ' ' ∉ n → containsSubL n (joinSpace ws).data = true →
    n = [] ∨ ∃ w ∈ ws, containsSubL n w.data = true := by
  intro ws
  induction ws with
  | nil =>
    intro n hsp h
    simp only [joinSpace] at h
    cases n with
    | nil => exact Or.inl rfl
    | cons a as => simp [containsSubL, List.isEmpty] at h
  | cons x rest ih =>
    intro n hsp h
    cases rest with
    | nil => exact Or.inr ⟨x, List.mem_singleton.mpr rfl, h⟩
    | cons y rest2 =>
      rw [joinSpace_data_cons] at h
      rcases containsSubL_split _ _ _ _ hsp h with h2 | h2
      · exact Or.inr ⟨x, List.mem_cons_self x _, h2⟩
      · rcases ih n hsp h2 with h3 | ⟨w, hw, h3⟩
        · exact Or.inl h3
        · exact Or.inr ⟨w, List.mem_cons_of_mem x hw, h3⟩

end CollegePortal

namespace CollegePortal

theorem toLowerStr_append (a b : String) :
    toLowerStr (a ++ b) = toLowerStr a ++ toLowerStr b := by
  show String.mk _ = _
  simp only [toLowerStr, String.data_append, List.map_append]
  rfl

theorem toLowerStr_joinSpace : ∀ ws : List String,
    toLowerStr (joinSpace ws) = joinSpace (ws.map toLowerStr) := by
  intro ws
  induction ws with
  | nil => rfl
  | cons x rest ih =>
    cases rest with
    | nil => rfl
    | cons y rest2 =>
      show toLowerStr (x ++ " " ++ joinSpace (y :: rest2)) = _
      rw [toLowerStr_append, toLowerStr_append, ih]
      rfl

theorem dropWhile_eq_self_of_head (p : Char → Bool) (l : List Char)
    (h : ∀ c, l.head? = some c → p c = false) : l.dropWhile p = l := by
  cases l with
  | nil => rfl
  | cons c rest => simp [List.dropWhile_cons, h c rfl]

theorem jsTrimData_eq_self (l : List Char)
    (hhead : ∀ c, l.head? = some c → c.isWhitespace = false)
    (hlast : ∀ c, l.getLast? = some c → c.isWhitespace = false) :
    jsTrimData l = l := by
  unfold jsTrimData
  rw [dropWhile_eq_self_of_head _ _ hhead]
  rw [dropWhile_eq_self_of_head _ _
    (fun c hc => hlast c (by rwa [List.head?_reverse] at hc))]
  exact List.reverse_reverse l

theorem joinSpace_head? (w : String) (ws : List String) (hw : w.data ≠ []) :
    (joinSpace (w :: ws)).data.head? = w.data.head? := by
  cases ws with
  | nil => rfl
  | cons y rest =>
    rw [joinSpace_data_cons]
    cases hd : w.data with
    | nil => exact absurd hd hw
    | cons c t => simp [hd]

theorem joinSpace_data_ne_nil (w : String) (ws : List String) (hw : w.data ≠ []) :
    (joinSpace (w :: ws)).data ≠ [] := by
  intro hnil
  have := joinSpace_head? w ws hw
  rw [hnil] at this
  cases hd : w.data with
  | nil => exact hw hd
  | cons c t => rw [hd] at this; simp at this

theorem joinSpace_getLast? : ∀ (ws : List String), ws ≠ [] →
    (∀ w ∈ ws, w.data ≠ []) →
    ∃ w ∈ ws, (joinSpace ws).data.getLast? = w.data.getLast? := by
  intro ws
  induction ws with
  | nil => intro h; exact absurd rfl h
  | cons x rest ih =>
    intro _ hall
    cases rest with
    | nil => exact ⟨x, List.mem_singleton.mpr rfl, rfl⟩
    | cons y rest2 =>
      have hy : (joinSpace (y :: rest2)).data ≠ [] :=
        joinSpace_data_ne_nil y rest2 (hall y (by simp))
      rcases ih (by simp) (fun w hw => hall w (List.mem_cons_of_mem x hw)) with ⟨w, hw, hlast⟩
      refine ⟨w, List.mem_cons_of_mem x hw, ?_⟩
      rw [joinSpace_data_cons, List.getLast?_append]
      cases htl : (joinSpace (y :: rest2)).data with
      | nil => exact absurd htl hy
      | cons c t =>
        rw [← htl, ← hlast]
        have : (' ' :: (joinSpace (y :: rest2)).data).getLast? =
            (joinSpace (y :: rest2)).data.getLast? := by
          rw [htl]
          exact List.getLast?_cons_cons
        rw [this]
        cases hgl : (joinSpace (y :: rest2)).data.getLast? with
        | none =>
          exact absurd (List.getLast?_eq_none_iff.mp hgl) hy
        | some c2 => rfl

end CollegePortal

namespace CollegePortal

theorem filter_joinSpace_length (p : Char → Bool) (hsp : p ' ' = false) :
    ∀ ws : List String, ((joinSpace ws).data.filter p).length =
      (ws.map (fun w => (w.data.filter p).length)).sum := by
  intro ws
  induction ws with
  | nil => rfl
  | cons x rest ih =>
    cases rest with
    | nil => simp [joinSpace]
    | cons y rest2 =>
      rw [joinSpace_data_cons, List.filter_append, List.length_append]
      have hcons : List.filter p (' ' :: (joinSpace (y :: rest2)).data) =
          List.filter p (joinSpace (y :: rest2)).data := by
        simp [List.filter_cons, hsp]
      rw [hcons, ih]
      simp

theorem single_le_map_sum (f : String → Nat) : ∀ (l : List String) (a : String),
    a ∈ l → f a ≤ (l.map f).sum := by
  intro l
  induction l with
  | nil => intro a ha; cases ha
  | cons x t ih =>
    intro a ha
    rcases List.mem_cons.mp ha with rfl | ha2
    · simp
    · simp only [List.map_cons, List.sum_cons]
      exact le_trans (ih a ha2) (Nat.le_add_left _ _)

theorem two_le_map_sum (f : String → Nat) : ∀ (l : List String) (a b : String),
    a ∈ l → b ∈ l → a ≠ b → f a + f b ≤ (l.map f).sum := by
  intro l
  induction l with
  | nil => intro a b ha _ _; cases ha
  | cons x t ih =>
    intro a b ha hb hab
    by_cases hxa : x = a
    · subst hxa
      have hbt : b ∈ t := by
        rcases List.mem_cons.mp hb with h | h
        · exact absurd h.symm hab
        · exact h
      simp only [List.map_cons, List.sum_cons]
      exact Nat.add_le_add_left (single_le_map_sum f t b hbt) (f x)
    · by_cases hxb : x = b
      · subst hxb
        have hat : a ∈ t := by
          rcases List.mem_cons.mp ha with h | h
          · exact absurd h.symm hxa
          · exact h
        simp only [List.map_cons, List.sum_cons]
        calc f a + f x ≤ f x + f a := by omega
          _ ≤ f x + (t.map f).sum :=
              Nat.add_le_add_left (single_le_map_sum f t a hat) (f x)
      · have hat : a ∈ t := by
          rcases List.mem_cons.mp ha with h | h
          · exact absurd h.symm hxa
          · exact h
        have hbt : b ∈ t := by
          rcases List.mem_cons.mp hb with h | h
          · exact absurd h.symm hxb
          · exact h
        simp only [List.map_cons, List.sum_cons]
        exact le_trans (ih a b hat hbt hab) (Nat.le_add_left _ _)

end CollegePortal

namespace CollegePortal

theorem two_le_filter_length (p : String → Bool) : ∀ (l : List String) (a b : String),
    a ∈ l → b ∈ l → a ≠ b → p a = true → p b = true →
    2 ≤ (l.filter p).length := by
  intro l
  induction l with
  | nil => intro a b ha _ _ _ _; cases ha
  | cons x t ih =>
    intro a b ha hb hab hpa hpb
    by_cases hxa : x = a
    · subst hxa
      have hbt : b ∈ t := by
        rcases List.mem_cons.mp hb with h | h
        · exact absurd h.symm hab
        · exact h
      rw [List.filter_cons, if_pos hpa]
      have : 1 ≤ (t.filter p).length :=
        List.length_pos.mpr (List.ne_nil_of_mem (List.mem_filter.mpr ⟨hbt, hpb⟩))
      simpa using Nat.succ_le_succ this
    · by_cases hxb : x = b
      · subst hxb
        have hat : a ∈ t := by
          rcases List.mem_cons.mp ha with h | h
          · exact absurd h.symm hxa
          · exact h
        rw [List.filter_cons, if_pos hpb]
        have : 1 ≤ (t.filter p).length :=
          List.length_pos.mpr (List.ne_nil_of_mem (List.mem_filter.mpr ⟨hat, hpa⟩))
        simpa using Nat.succ_le_succ this
      · have hat : a ∈ t := by
          rcases List.mem_cons.mp ha with h | h
          · exact absurd h.symm hxa
          · exact h
        have hbt : b ∈ t := by
          rcases List.mem_cons.mp hb with h | h
          · exact absurd h.symm hxb
          · exact h
        have h2 := ih a b hat hbt hab hpa hpb
        rw [List.filter_cons]
        split
        · exact le_trans h2 (by simp)
        · exact h2

theorem filter_length_le_one_of_unique (p : String → Bool) (l : List String) (a : String)
    (hall : ∀ x ∈ l, p x = true → x = a) (hcount : l.count a ≤ 1) :
    (l.filter p).length ≤ 1 := by
  have h1 : ∀ x ∈ l.filter p, x = a := fun x hx =>
    hall x (List.mem_filter.mp hx).1 (List.mem_filter.mp hx).2
  have h2 : (l.filter p).length = (l.filter p).count a :=
    (List.count_eq_length.mpr (fun b hb => (h1 b hb).symm)).symm
  rw [h2]
  exact le_trans (List.Sublist.count_le (List.filter_sublist _) a) hcount

end CollegePortal

namespace CollegePortal

/- keyword shape facts -/
theorem kw_facts_shape2 :
    ∀ k ∈ hindiKeywords ++ rajasthaniKeywords ++ englishKeywords,
      (toLowerStr k).data ≠ [] ∧ 2 ≤ k.data.length ∧
      (∀ c ∈ (toLowerStr k).data, c.isWhitespace = false) ∧
      (∀ c ∈ k.data, c.isWhitespace = false) := by decide

theorem hindi_chars_dev : ∀ k ∈ hindiKeywords, ∀ c ∈ k.data,
    isDevanagari c = true ∧ isLatinLetter c = false := by decide

theorem raj_chars_dev : ∀ k ∈ rajasthaniKeywords, ∀ c ∈ k.data,
    isDevanagari c = true ∧ isLatinLetter c = false := by decide

theorem eng_chars_latin : ∀ k ∈ englishKeywords, ∀ c ∈ k.data,
    isLatinLetter c = true ∧ isDevanagari c = false := by decide

theorem tbl_hindi_in_eng : ∀ h ∈ hindiKeywords, ∀ e ∈ englishKeywords,
    containsSubL (toLowerStr h).data (toLowerStr e).data = false := by decide

theorem tbl_raj_in_eng : ∀ r ∈ rajasthaniKeywords, ∀ e ∈ englishKeywords,
    containsSubL (toLowerStr r).data (toLowerStr e).data = false := by decide

theorem tbl_eng_in_hindi : ∀ e ∈ englishKeywords, ∀ h ∈ hindiKeywords,
    containsSubL (toLowerStr e).data (toLowerStr h).data = false := by decide

theorem tbl_raj_in_hindi : ∀ r ∈ rajasthaniKeywords, ∀ h ∈ hindiKeywords,
    containsSubL (toLowerStr r).data (toLowerStr h).data = false := by decide

theorem tbl_eng_in_raj : ∀ e ∈ englishKeywords, ∀ r ∈ rajasthaniKeywords,
    containsSubL (toLowerStr e).data (toLowerStr r).data = false := by decide

theorem tbl_hindi_in_raj_unique : ∀ h ∈ hindiKeywords, h ≠ "था" →
    ∀ r ∈ rajasthaniKeywords,
      containsSubL (toLowerStr h).data (toLowerStr r).data = false := by decide

theorem hindi_count_tha : hindiKeywords.count "था" = 1 := by decide

end CollegePortal

namespace CollegePortal

theorem sortDescBy3_first (x y z : Lang × ℚ) (h1 : y.2 < x.2) (h2 : z.2 < x.2) :
    sortDescBy (fun p : Lang × ℚ => p.2) [x, y, z] =
      x :: insertDescBy (fun p : Lang × ℚ => p.2) y [z] := by
  simp only [sortDescBy]
  by_cases hyz : y.2 < z.2
  · simp only [insertDescBy, if_pos hyz, if_neg (not_lt.mpr (le_of_lt h2))]
  · simp only [insertDescBy, if_neg hyz, if_neg (not_lt.mpr (le_of_lt h1))]

theorem sortDescBy3_second (x y z : Lang × ℚ) (h1 : x.2 < y.2) (h2 : z.2 < y.2) :
    sortDescBy (fun p : Lang × ℚ => p.2) [x, y, z] =
      y :: insertDescBy (fun p : Lang × ℚ => p.2) x [z] := by
  simp only [sortDescBy]
  simp only [insertDescBy, if_neg (not_lt.mpr (le_of_lt h2)), if_pos h1]

theorem sortDescBy3_third (x y z : Lang × ℚ) (h1 : x.2 < z.2) (h2 : y.2 < z.2) :
    sortDescBy (fun p : Lang × ℚ => p.2) [x, y, z] =
      z :: insertDescBy (fun p : Lang × ℚ => p.2) x [y] := by
  simp only [sortDescBy]
  simp only [insertDescBy, if_pos h2, if_pos h1]

theorem okPrimary_first (code text clean : String)
    (h1 : okScore code text clean Lang.hi < okScore code text clean Lang.en)
    (h2 : okScore code text clean Lang.raj < okScore code text clean Lang.en) :
    okPrimary code text clean =
      (Lang.en, min (okScore code text clean Lang.en / 10) 1) := by
  unfold okPrimary okSorted
  rw [sortDescBy3_first _ _ _ h1 h2]
  rfl

theorem okPrimary_second (code text clean : String)
    (h1 : okScore code text clean Lang.en < okScore code text clean Lang.hi)
    (h2 : okScore code text clean Lang.raj < okScore code text clean Lang.hi) :
    okPrimary code text clean =
      (Lang.hi, min (okScore code text clean Lang.hi / 10) 1) := by
  unfold okPrimary okSorted
  rw [sortDescBy3_second _ _ _ h1 h2]
  rfl

theorem okPrimary_third (code text clean : String)
    (h1 : okScore code text clean Lang.en < okScore code text clean Lang.raj)
    (h2 : okScore code text clean Lang.hi < okScore code text clean Lang.raj) :
    okPrimary code text clean =
      (Lang.raj, min (okScore code text clean Lang.raj / 10) 1) := by
  unfold okPrimary okSorted
  rw [sortDescBy3_third _ _ _ h1 h2]
  rfl

theorem reduceMax3_first (x y z : Lang × ℚ) (h1 : y.2 < x.2) (h2 : z.2 < x.2) :
    reduceMax x [y, z] = x := by
  simp only [reduceMax, if_pos h1, if_pos h2]

theorem reduceMax3_second (x y z : Lang × ℚ) (h1 : x.2 ≤ y.2) (h2 : z.2 < y.2) :
    reduceMax x [y, z] = y := by
  simp only [reduceMax, if_neg (not_lt.mpr h1), if_pos h2]

theorem reduceMax3_third (x y z : Lang × ℚ) (h1 : x.2 < z.2) (h2 : y.2 < z.2) :
    reduceMax x [y, z] = z := by
  by_cases hyx : y.2 < x.2
  · simp only [reduceMax, if_pos hyx, if_neg (not_lt.mpr (le_of_lt h1))]
  · simp only [reduceMax, if_neg hyx, if_neg (not_lt.mpr (le_of_lt h2))]

theorem detectLanguage_ok_result (code text : String)
    (hne : ¬(jsTrim text).data = [])
    (hnotlow : ¬(okPrimary code text (jsTrim (toLowerStr text))).2 < 1/5) :
    detectLanguage (FrancOutcome.ok code) text =
      ⟨(okPrimary code text (jsTrim (toLowerStr text))).1,
       (okPrimary code text (jsTrim (toLowerStr text))).2,
       okAltOpt code text (jsTrim (toLowerStr text))⟩ := by
  unfold detectLanguage
  rw [if_neg hne]
  simp only [hnotlow, if_false]

theorem detectLanguage_err_result (text : String)
    (hne : ¬(jsTrim text).data = []) :
    detectLanguage FrancOutcome.err text =
      ⟨(reduceMax (Lang.en, baseScore text (jsTrim (toLowerStr text)) Lang.en)
          [(Lang.hi, baseScore text (jsTrim (toLowerStr text)) Lang.hi),
           (Lang.raj, baseScore text (jsTrim (toLowerStr text)) Lang.raj)]).1,
       min ((reduceMax (Lang.en, baseScore text (jsTrim (toLowerStr text)) Lang.en)
          [(Lang.hi, baseScore text (jsTrim (toLowerStr text)) Lang.hi),
           (Lang.raj, baseScore text (jsTrim (toLowerStr text)) Lang.raj)]).2 / 10) 1,
       none⟩ := by
  unfold detectLanguage
  rw [if_neg hne]

end CollegePortal

namespace CollegePortal

theorem kw_shape_of_mem (L : Lang) (k : String) (hk : k ∈ keywordsOf L) :
    (toLowerStr k).data ≠ [] ∧ 2 ≤ k.data.length ∧
    (∀ c ∈ (toLowerStr k).data, c.isWhitespace = false) ∧
    (∀ c ∈ k.data, c.isWhitespace = false) := by
  apply kw_facts_shape2
  cases L with
  | en =>
    simp only [keywordsOf] at hk
    exact List.mem_append_right _ hk
  | hi =>
    simp only [keywordsOf] at hk
    exact List.mem_append_left _ (List.mem_append_left _ hk)
  | raj =>
    simp only [keywordsOf] at hk
    exact List.mem_append_left _ (List.mem_append_right _ hk)

theorem mem_of_head?_eq (l : List Char) (c : Char) (h : l.head? = some c) : c ∈ l := by
  cases l with
  | nil => cases h
  | cons d t =>
    injection h with h2
    rw [← h2]
    exact List.mem_cons_self d t

theorem mem_of_getLast?_eq (l : List Char) (c : Char) (h : l.getLast? = some c) : c ∈ l := by
  have h2 : l.reverse.head? = some c := by rwa [List.head?_reverse]
  have h3 := mem_of_head?_eq _ _ h2
  rwa [List.mem_reverse] at h3

theorem jsTrim_joinSpace_eq (ws : List String) (hne : ws ≠ [])
    (hnonempty : ∀ w ∈ ws, w.data ≠ [])
    (hnws : ∀ w ∈ ws, ∀ c ∈ w.data, c.isWhitespace = false) :
    jsTrim (joinSpace ws) = joinSpace ws := by
  rcases ws with _ | ⟨w, rest⟩
  · exact absurd rfl hne
  show String.mk (jsTrimData (joinSpace (w :: rest)).data) = _
  rw [jsTrimData_eq_self]
  · intro c hc
    rw [joinSpace_head? w rest (hnonempty w (by simp))] at hc
    exact hnws w (by simp) c (mem_of_head?_eq _ _ hc)
  · intro c hc
    rcases joinSpace_getLast? (w :: rest) (by simp) hnonempty with ⟨w2, hw2, hl⟩
    rw [hl] at hc
    exact hnws w2 hw2 c (mem_of_getLast?_eq _ _ hc)

theorem keyword_present (ws : List String) (k : String) (hk : k ∈ ws) :
    jsIncludes (joinSpace (ws.map toLowerStr)) (toLowerStr k) = true :=
  containsSubL_joinSpace_of_mem (ws.map toLowerStr) (toLowerStr k)
    (List.mem_map_of_mem toLowerStr hk)

theorem keyword_absent (ws : List String) (n : String)
    (hn : (toLowerStr n).data ≠ [])
    (hsp : ∀ c ∈ (toLowerStr n).data, c.isWhitespace = false)
    (habs : ∀ w ∈ ws, containsSubL (toLowerStr n).data (toLowerStr w).data = false) :
    jsIncludes (joinSpace (ws.map toLowerStr)) (toLowerStr n) = false := by
  cases hb : jsIncludes (joinSpace (ws.map toLowerStr)) (toLowerStr n) with
  | false => rfl
  | true =>
    exfalso
    have hspace : ' ' ∉ (toLowerStr n).data := fun hmem =>
      absurd (hsp ' ' hmem) (by decide)
    rcases containsSubL_joinSpace_split (ws.map toLowerStr) _ hspace hb with h0 | ⟨wL, hwL, hocc⟩
    · exact hn h0
    · rcases List.mem_map.mp hwL with ⟨w, hw, rfl⟩
      rw [habs w hw] at hocc
      cases hocc

theorem keywordCount_ge_two (L : Lang) (ws : List String)
    (hws : ∀ w ∈ ws, w ∈ keywordsOf L) (k1 k2 : String)
    (h1 : k1 ∈ ws) (h2 : k2 ∈ ws) (hne : k1 ≠ k2) :
    2 ≤ keywordCount L (joinSpace (ws.map toLowerStr)) := by
  unfold keywordCount
  exact two_le_filter_length _ (keywordsOf L) k1 k2 (hws k1 h1) (hws k2 h2) hne
    (keyword_present ws k1 h1) (keyword_present ws k2 h2)

theorem keywordCount_eq_zero (M L : Lang) (ws : List String)
    (hws : ∀ w ∈ ws, w ∈ keywordsOf L)
    (htbl : ∀ m ∈ keywordsOf M, ∀ w ∈ keywordsOf L,
      containsSubL (toLowerStr m).data (toLowerStr w).data = false) :
    keywordCount M (joinSpace (ws.map toLowerStr)) = 0 := by
  unfold keywordCount
  rw [List.length_eq_zero, List.filter_eq_nil_iff]
  intro m hm
  rw [keyword_absent ws m (kw_shape_of_mem M m hm).1 (kw_shape_of_mem M m hm).2.2.1
    (fun w hw => htbl m hm w (hws w hw))]
  simp

theorem keywordCount_hi_le_one_of_raj (ws : List String)
    (hws : ∀ w ∈ ws, w ∈ rajasthaniKeywords) :
    keywordCount Lang.hi (joinSpace (ws.map toLowerStr)) ≤ 1 := by
  unfold keywordCount
  apply filter_length_le_one_of_unique _ _ "था"
  · intro h hh hp
    by_contra hneq
    have habs : jsIncludes (joinSpace (ws.map toLowerStr)) (toLowerStr h) = false := by
      apply keyword_absent ws h (kw_shape_of_mem Lang.hi h hh).1
        (kw_shape_of_mem Lang.hi h hh).2.2.1
      intro w hw
      exact tbl_hindi_in_raj_unique h hh hneq w (hws w hw)
    rw [habs] at hp
    cases hp
  · exact hindi_count_tha.le

theorem scriptCount_dev_join (ws : List String)
    (hall : ∀ w ∈ ws, ∀ c ∈ w.data, isDevanagari c = true) :
    ((joinSpace ws).data.filter isDevanagari).length =
      (ws.map (fun w => w.data.length)).sum := by
  rw [filter_joinSpace_length isDevanagari (by decide)]
  congr 1
  apply List.map_congr_left
  intro w hw
  rw [List.filter_eq_self.mpr (hall w hw)]

theorem scriptCount_zero_join (p : Char → Bool) (hp : p ' ' = false) (ws : List String)
    (hall : ∀ w ∈ ws, ∀ c ∈ w.data, p c = false) :
    ((joinSpace ws).data.filter p).length = 0 := by
  rw [filter_joinSpace_length p hp]
  have hmap : ws.map (fun w => (w.data.filter p).length) = ws.map (fun _ => 0) := by
    apply List.map_congr_left
    intro w hw
    rw [show w.data.filter p = [] from
      List.filter_eq_nil_iff.mpr (fun c hc => by simp [hall w hw c hc])]
    rfl
  rw [hmap]
  simp

theorem four_le_len_sum (L : Lang) (ws : List String) (hws : ∀ w ∈ ws, w ∈ keywordsOf L)
    (k1 k2 : String) (h1 : k1 ∈ ws) (h2 : k2 ∈ ws) (hne : k1 ≠ k2) :
    4 ≤ (ws.map (fun w => w.data.length)).sum := by
  have hlen1 : 2 ≤ k1.data.length := (kw_shape_of_mem L k1 (hws k1 h1)).2.1
  have hlen2 : 2 ≤ k2.data.length := (kw_shape_of_mem L k2 (hws k2 h2)).2.1
  have hsum := two_le_map_sum (fun w => w.data.length) ws k1 k2 h1 h2 hne
  simp only at hsum
  omega

end CollegePortal

namespace CollegePortal

theorem c6_detect_hi (fo : FrancOutcome) (ws : List String)
    (hws : ∀ w ∈ ws, w ∈ keywordsOf Lang.hi) (k1 k2 : String)
    (h1 : k1 ∈ ws) (h2 : k2 ∈ ws) (hne12 : k1 ≠ k2) :
    (detectLanguage fo (joinSpace ws)).language = Lang.hi ∧
    1/5 < (detectLanguage fo (joinSpace ws)).confidence := by
  have hwsne : ws ≠ [] := List.ne_nil_of_mem h1
  have horig_ne : ∀ w ∈ ws, w.data ≠ [] := by
    intro w hw hnil
    have := (kw_shape_of_mem Lang.hi w (hws w hw)).2.1
    rw [hnil] at this
    simp at this
  have horig_nws : ∀ w ∈ ws, ∀ c ∈ w.data, c.isWhitespace = false :=
    fun w hw => (kw_shape_of_mem Lang.hi w (hws w hw)).2.2.2
  have htrim_orig : jsTrim (joinSpace ws) = joinSpace ws :=
    jsTrim_joinSpace_eq ws hwsne horig_ne horig_nws
  have hne_trim : ¬(jsTrim (joinSpace ws)).data = [] := by
    rw [htrim_orig]
    rcases ws with _ | ⟨w, rest⟩
    · exact absurd rfl hwsne
    · exact joinSpace_data_ne_nil w rest (horig_ne w (by simp))
  have hclean : jsTrim (toLowerStr (joinSpace ws)) = joinSpace (ws.map toLowerStr) := by
    rw [toLowerStr_joinSpace]
    refine jsTrim_joinSpace_eq _ (fun h => hwsne (List.map_eq_nil.mp h)) ?_ ?_
    · intro wL hwL
      rcases List.mem_map.mp hwL with ⟨w, hw, rfl⟩
      exact (kw_shape_of_mem Lang.hi w (hws w hw)).1
    · intro wL hwL
      rcases List.mem_map.mp hwL with ⟨w, hw, rfl⟩
      exact (kw_shape_of_mem Lang.hi w (hws w hw)).2.2.1
  -- keyword counts over the clean text
  have hkH : 2 ≤ keywordCount Lang.hi (joinSpace (ws.map toLowerStr)) :=
    keywordCount_ge_two Lang.hi ws hws k1 k2 h1 h2 hne12
  have hkR : keywordCount Lang.raj (joinSpace (ws.map toLowerStr)) = 0 :=
    keywordCount_eq_zero Lang.raj Lang.hi ws hws tbl_raj_in_hindi
  have hkE : keywordCount Lang.en (joinSpace (ws.map toLowerStr)) = 0 :=
    keywordCount_eq_zero Lang.en Lang.hi ws hws tbl_eng_in_hindi
  -- script counts over the original text
  have hchars : ∀ w ∈ ws, ∀ c ∈ w.data, isDevanagari c = true ∧ isLatinLetter c = false :=
    fun w hw => hindi_chars_dev w (hws w hw)
  have hsH : scriptCount Lang.hi (joinSpace ws) = (ws.map (fun w => w.data.length)).sum :=
    scriptCount_dev_join ws (fun w hw c hc => (hchars w hw c hc).1)
  have hsE : scriptCount Lang.en (joinSpace ws) = 0 :=
    scriptCount_zero_join isLatinLetter (by decide) ws (fun w hw c hc => (hchars w hw c hc).2)
  have hD : 4 ≤ (ws.map (fun w => w.data.length)).sum :=
    four_le_len_sum Lang.hi ws hws k1 k2 h1 h2 hne12
  -- base scores
  have hscRH : scriptCount Lang.raj (joinSpace ws) = scriptCount Lang.hi (joinSpace ws) := rfl
  have hDq : (4:ℚ) ≤ (scriptCount Lang.hi (joinSpace ws) : ℚ) := by
    rw [hsH]; exact_mod_cast hD
  have hkHq : (2:ℚ) ≤ (keywordCount Lang.hi (joinSpace (ws.map toLowerStr)) : ℚ) := by
    exact_mod_cast hkH
  have hbH : (scriptCount Lang.hi (joinSpace ws) : ℚ) * (3/10) + 14/10 ≤
      baseScore (joinSpace ws) (joinSpace (ws.map toLowerStr)) Lang.hi := by
    unfold baseScore
    nlinarith [hkHq]
  have hbH26 : 26/10 ≤ baseScore (joinSpace ws) (joinSpace (ws.map toLowerStr)) Lang.hi := by
    nlinarith [hbH, hDq]
  have hbR : baseScore (joinSpace ws) (joinSpace (ws.map toLowerStr)) Lang.raj =
      (scriptCount Lang.hi (joinSpace ws) : ℚ) * (3/10) := by
    unfold baseScore
    rw [hscRH, hkR]
    push_cast
    ring
  have hbE : baseScore (joinSpace ws) (joinSpace (ws.map toLowerStr)) Lang.en = 0 := by
    unfold baseScore
    rw [hsE, hkE]
    norm_num
  cases fo with
  | ok code =>
    have hfH0 : 0 ≤ francScore code Lang.hi := by
      by_cases h : code = "hin" <;> simp [francScore, h] <;> norm_num
    have hfE : francScore code Lang.en ≤ 2/5 := by
      by_cases h : code = "eng" <;> simp [francScore, h] <;> norm_num
    have hEH : okScore code (joinSpace ws) (joinSpace (ws.map toLowerStr)) Lang.en <
        okScore code (joinSpace ws) (joinSpace (ws.map toLowerStr)) Lang.hi := by
      unfold okScore
      rw [hbE]
      have : (2:ℚ)/5 < 26/10 := by norm_num
      linarith [hbH26, hfH0, hfE]
    have hRH : okScore code (joinSpace ws) (joinSpace (ws.map toLowerStr)) Lang.raj <
        okScore code (joinSpace ws) (joinSpace (ws.map toLowerStr)) Lang.hi := by
      unfold okScore
      rw [hbR, show francScore code Lang.raj = 0 from rfl]
      linarith [hbH, hfH0]
    have hconf : 1/5 < min (okScore code (joinSpace ws) (joinSpace (ws.map toLowerStr))
        Lang.hi / 10) 1 := by
      apply lt_min
      · have : 26/10 ≤ okScore code (joinSpace ws) (joinSpace (ws.map toLowerStr)) Lang.hi := by
          unfold okScore
          linarith [hbH26, hfH0]
        linarith
      · norm_num
    have hne_low : ¬(okPrimary code (joinSpace ws)
        (jsTrim (toLowerStr (joinSpace ws)))).2 < 1/5 := by
      rw [hclean, okPrimary_second code (joinSpace ws) (joinSpace (ws.map toLowerStr)) hEH hRH]
      exact not_lt.mpr (le_of_lt hconf)
    rw [detectLanguage_ok_result code (joinSpace ws) hne_trim hne_low]
    rw [hclean, okPrimary_second code (joinSpace ws) (joinSpace (ws.map toLowerStr)) hEH hRH]
    exact ⟨rfl, hconf⟩
  | err =>
    rw [detectLanguage_err_result (joinSpace ws) hne_trim, hclean]
    have hle : (Lang.en, baseScore (joinSpace ws) (joinSpace (ws.map toLowerStr)) Lang.en).2 ≤
        (Lang.hi, baseScore (joinSpace ws) (joinSpace (ws.map toLowerStr)) Lang.hi).2 := by
      simp only
      rw [hbE]
      linarith [hbH26]
    have hlt : (Lang.raj, baseScore (joinSpace ws) (joinSpace (ws.map toLowerStr)) Lang.raj).2 <
        (Lang.hi, baseScore (joinSpace ws) (joinSpace (ws.map toLowerStr)) Lang.hi).2 := by
      simp only
      rw [hbR]
      linarith [hbH]
    rw [reduceMax3_second _ _ _ hle hlt]
    refine ⟨rfl, ?_⟩
    apply lt_min
    · simp only
      linarith [hbH26]
    · norm_num

end CollegePortal

namespace CollegePortal

theorem filter_join_full (p : Char → Bool) (hp : p ' ' = false) (ws : List String)
    (hall : ∀ w ∈ ws, ∀ c ∈ w.data, p c = true) :
    ((joinSpace ws).data.filter p).length = (ws.map (fun w => w.data.length)).sum := by
  rw [filter_joinSpace_length p hp]
  congr 1
  apply List.map_congr_left
  intro w hw
  rw [List.filter_eq_self.mpr (hall w hw)]

theorem c6_detect_raj (fo : FrancOutcome) (ws : List String)
    (hws : ∀ w ∈ ws, w ∈ keywordsOf Lang.raj) (k1 k2 : String)
    (h1 : k1 ∈ ws) (h2 : k2 ∈ ws) (hne12 : k1 ≠ k2) :
    (detectLanguage fo (joinSpace ws)).language = Lang.raj ∧
    1/5 < (detectLanguage fo (joinSpace ws)).confidence := by
  have hwsne : ws ≠ [] := List.ne_nil_of_mem h1
  have horig_ne : ∀ w ∈ ws, w.data ≠ [] := by
    intro w hw hnil
    have := (kw_shape_of_mem Lang.raj w (hws w hw)).2.1
    rw [hnil] at this
    simp at this
  have horig_nws : ∀ w ∈ ws, ∀ c ∈ w.data, c.isWhitespace = false :=
    fun w hw => (kw_shape_of_mem Lang.raj w (hws w hw)).2.2.2
  have htrim_orig : jsTrim (joinSpace ws) = joinSpace ws :=
    jsTrim_joinSpace_eq ws hwsne horig_ne horig_nws
  have hne_trim : ¬(jsTrim (joinSpace ws)).data = [] := by
    rw [htrim_orig]
    rcases ws with _ | ⟨w, rest⟩
    · exact absurd rfl hwsne
    · exact joinSpace_data_ne_nil w rest (horig_ne w (by simp))
  have hclean : jsTrim (toLowerStr (joinSpace ws)) = joinSpace (ws.map toLowerStr) := by
    rw [toLowerStr_joinSpace]
    refine jsTrim_joinSpace_eq _ (fun h => hwsne (List.map_eq_nil.mp h)) ?_ ?_
    · intro wL hwL
      rcases List.mem_map.mp hwL with ⟨w, hw, rfl⟩
      exact (kw_shape_of_mem Lang.raj w (hws w hw)).1
    · intro wL hwL
      rcases List.mem_map.mp hwL with ⟨w, hw, rfl⟩
      exact (kw_shape_of_mem Lang.raj w (hws w hw)).2.2.1
  have hkR : 2 ≤ keywordCount Lang.raj (joinSpace (ws.map toLowerStr)) :=
    keywordCount_ge_two Lang.raj ws hws k1 k2 h1 h2 hne12
  have hkH1 : keywordCount Lang.hi (joinSpace (ws.map toLowerStr)) ≤ 1 :=
    keywordCount_hi_le_one_of_raj ws hws
  have hkE : keywordCount Lang.en (joinSpace (ws.map toLowerStr)) = 0 :=
    keywordCount_eq_zero Lang.en Lang.raj ws hws tbl_eng_in_raj
  have hchars : ∀ w ∈ ws, ∀ c ∈ w.data, isDevanagari c = true ∧ isLatinLetter c = false :=
    fun w hw => raj_chars_dev w (hws w hw)
  have hsH : scriptCount Lang.hi (joinSpace ws) = (ws.map (fun w => w.data.length)).sum :=
    scriptCount_dev_join ws (fun w hw c hc => (hchars w hw c hc).1)
  have hsE : scriptCount Lang.en (joinSpace ws) = 0 :=
    scriptCount_zero_join isLatinLetter (by decide) ws (fun w hw c hc => (hchars w hw c hc).2)
  have hD : 4 ≤ (ws.map (fun w => w.data.length)).sum :=
    four_le_len_sum Lang.raj ws hws k1 k2 h1 h2 hne12
  have hscRH : scriptCount Lang.raj (joinSpace ws) = scriptCount Lang.hi (joinSpace ws) := rfl
  have hDq : (4:ℚ) ≤ (scriptCount Lang.hi (joinSpace ws) : ℚ) := by
    rw [hsH]; exact_mod_cast hD
  have hkRq : (2:ℚ) ≤ (keywordCount Lang.raj (joinSpace (ws.map toLowerStr)) : ℚ) := by
    exact_mod_cast hkR
  have hkH1q : (keywordCount Lang.hi (joinSpace (ws.map toLowerStr)) : ℚ) ≤ 1 := by
    exact_mod_cast hkH1
  have hbR : (scriptCount Lang.hi (joinSpace ws) : ℚ) * (3/10) + 14/10 ≤
      baseScore (joinSpace ws) (joinSpace (ws.map toLowerStr)) Lang.raj := by
    unfold baseScore
    rw [hscRH]
    nlinarith [hkRq]
  have hbR26 : 26/10 ≤ baseScore (joinSpace ws) (joinSpace (ws.map toLowerStr)) Lang.raj := by
    nlinarith [hbR, hDq]
  have hbH : baseScore (joinSpace ws) (joinSpace (ws.map toLowerStr)) Lang.hi ≤
      (scriptCount Lang.hi (joinSpace ws) : ℚ) * (3/10) + 7/10 := by
    unfold baseScore
    nlinarith [hkH1q]
  have hbE : baseScore (joinSpace ws) (joinSpace (ws.map toLowerStr)) Lang.en = 0 := by
    unfold baseScore
    rw [hsE, hkE]
    norm_num
  cases fo with
  | ok code =>
    have hfH : francScore code Lang.hi ≤ 2/5 := by
      by_cases h : code = "hin" <;> simp [francScore, h] <;> norm_num
    have hfE : francScore code Lang.en ≤ 2/5 := by
      by_cases h : code = "eng" <;> simp [francScore, h] <;> norm_num
    have hRok : okScore code (joinSpace ws) (joinSpace (ws.map toLowerStr)) Lang.raj =
        baseScore (joinSpace ws) (joinSpace (ws.map toLowerStr)) Lang.raj := by
      unfold okScore
      rw [show francScore code Lang.raj = 0 from rfl]
      ring
    have hEH : okScore code (joinSpace ws) (joinSpace (ws.map toLowerStr)) Lang.en <
        okScore code (joinSpace ws) (joinSpace (ws.map toLowerStr)) Lang.raj := by
      unfold okScore
      rw [hbE, show francScore code Lang.raj = 0 from rfl]
      have h25 : (2:ℚ)/5 < 26/10 := by norm_num
      linarith [hbR26, hfE]
    have hHR : okScore code (joinSpace ws) (joinSpace (ws.map toLowerStr)) Lang.hi <
        okScore code (joinSpace ws) (joinSpace (ws.map toLowerStr)) Lang.raj := by
      unfold okScore
      rw [show francScore code Lang.raj = 0 from rfl]
      linarith [hbR, hbH, hfH]
    have hconf : 1/5 < min (okScore code (joinSpace ws) (joinSpace (ws.map toLowerStr))
        Lang.raj / 10) 1 := by
      apply lt_min
      · rw [hRok]
        linarith [hbR26]
      · norm_num
    have hne_low : ¬(okPrimary code (joinSpace ws)
        (jsTrim (toLowerStr (joinSpace ws)))).2 < 1/5 := by
      rw [hclean, okPrimary_third code (joinSpace ws) (joinSpace (ws.map toLowerStr)) hEH hHR]
      exact not_lt.mpr (le_of_lt hconf)
    rw [detectLanguage_ok_result code (joinSpace ws) hne_trim hne_low]
    rw [hclean, okPrimary_third code (joinSpace ws) (joinSpace (ws.map toLowerStr)) hEH hHR]
    exact ⟨rfl, hconf⟩
  | err =>
    rw [detectLanguage_err_result (joinSpace ws) hne_trim, hclean]
    have hxz : (Lang.en, baseScore (joinSpace ws) (joinSpace (ws.map toLowerStr)) Lang.en).2 <
        (Lang.raj, baseScore (joinSpace ws) (joinSpace (ws.map toLowerStr)) Lang.raj).2 := by
      simp only
      rw [hbE]
      linarith [hbR26]
    have hyz : (Lang.hi, baseScore (joinSpace ws) (joinSpace (ws.map toLowerStr)) Lang.hi).2 <
        (Lang.raj, baseScore (joinSpace ws) (joinSpace (ws.map toLowerStr)) Lang.raj).2 := by
      simp only
      linarith [hbR, hbH]
    rw [reduceMax3_third _ _ _ hxz hyz]
    refine ⟨rfl, ?_⟩
    apply lt_min
    · simp only
      linarith [hbR26]
    · norm_num

theorem c6_detect_en (fo : FrancOutcome) (ws : List String)
    (hws : ∀ w ∈ ws, w ∈ keywordsOf Lang.en) (k1 k2 : String)
    (h1 : k1 ∈ ws) (h2 : k2 ∈ ws) (hne12 : k1 ≠ k2) :
    (detectLanguage fo (joinSpace ws)).language = Lang.en ∧
    1/5 < (detectLanguage fo (joinSpace ws)).confidence := by
  have hwsne : ws ≠ [] := List.ne_nil_of_mem h1
  have horig_ne : ∀ w ∈ ws, w.data ≠ [] := by
    intro w hw hnil
    have := (kw_shape_of_mem Lang.en w (hws w hw)).2.1
    rw [hnil] at this
    simp at this
  have horig_nws : ∀ w ∈ ws, ∀ c ∈ w.data, c.isWhitespace = false :=
    fun w hw => (kw_shape_of_mem Lang.en w (hws w hw)).2.2.2
  have htrim_orig : jsTrim (joinSpace ws) = joinSpace ws :=
    jsTrim_joinSpace_eq ws hwsne horig_ne horig_nws
  have hne_trim : ¬(jsTrim (joinSpace ws)).data = [] := by
    rw [htrim_orig]
    rcases ws with _ | ⟨w, rest⟩
    · exact absurd rfl hwsne
    · exact joinSpace_data_ne_nil w rest (horig_ne w (by simp))
  have hclean : jsTrim (toLowerStr (joinSpace ws)) = joinSpace (ws.map toLowerStr) := by
    rw [toLowerStr_joinSpace]
    refine jsTrim_joinSpace_eq _ (fun h => hwsne (List.map_eq_nil.mp h)) ?_ ?_
    · intro wL hwL
      rcases List.mem_map.mp hwL with ⟨w, hw, rfl⟩
      exact (kw_shape_of_mem Lang.en w (hws w hw)).1
    · intro wL hwL
      rcases List.mem_map.mp hwL with ⟨w, hw, rfl⟩
      exact (kw_shape_of_mem Lang.en w (hws w hw)).2.2.1
  have hkE : 2 ≤ keywordCount Lang.en (joinSpace (ws.map toLowerStr)) :=
    keywordCount_ge_two Lang.en ws hws k1 k2 h1 h2 hne12
  have hkH : keywordCount Lang.hi (joinSpace (ws.map toLowerStr)) = 0 :=
    keywordCount_eq_zero Lang.hi Lang.en ws hws tbl_hindi_in_eng
  have hkR : keywordCount Lang.raj (joinSpace (ws.map toLowerStr)) = 0 :=
    keywordCount_eq_zero Lang.raj Lang.en ws hws tbl_raj_in_eng
  have hchars : ∀ w ∈ ws, ∀ c ∈ w.data, isLatinLetter c = true ∧ isDevanagari c = false :=
    fun w hw => eng_chars_latin w (hws w hw)
  have hsE : scriptCount Lang.en (joinSpace ws) = (ws.map (fun w => w.data.length)).sum :=
    filter_join_full isLatinLetter (by decide) ws (fun w hw c hc => (hchars w hw c hc).1)
  have hsH : scriptCount Lang.hi (joinSpace ws) = 0 :=
    scriptCount_zero_join isDevanagari (by decide) ws (fun w hw c hc => (hchars w hw c hc).2)
  have hD : 4 ≤ (ws.map (fun w => w.data.length)).sum :=
    four_le_len_sum Lang.en ws hws k1 k2 h1 h2 hne12
  have hscRH : scriptCount Lang.raj (joinSpace ws) = scriptCount Lang.hi (joinSpace ws) := rfl
  have hDq : (4:ℚ) ≤ (scriptCount Lang.en (joinSpace ws) : ℚ) := by
    rw [hsE]; exact_mod_cast hD
  have hkEq : (2:ℚ) ≤ (keywordCount Lang.en (joinSpace (ws.map toLowerStr)) : ℚ) := by
    exact_mod_cast hkE
  have hbE : (scriptCount Lang.en (joinSpace ws) : ℚ) * (3/10) + 14/10 ≤
      baseScore (joinSpace ws) (joinSpace (ws.map toLowerStr)) Lang.en := by
    unfold baseScore
    nlinarith [hkEq]
  have hbE26 : 26/10 ≤ baseScore (joinSpace ws) (joinSpace (ws.map toLowerStr)) Lang.en := by
    nlinarith [hbE, hDq]
  have hbH : baseScore (joinSpace ws) (joinSpace (ws.map toLowerStr)) Lang.hi = 0 := by
    unfold baseScore
    rw [hsH, hkH]
    norm_num
  have hbR : baseScore (joinSpace ws) (joinSpace (ws.map toLowerStr)) Lang.raj = 0 := by
    unfold baseScore
    rw [hscRH, hsH, hkR]
    norm_num
  cases fo with
  | ok code =>
    have hfH : francScore code Lang.hi ≤ 2/5 := by
      by_cases h : code = "hin" <;> simp [francScore, h] <;> norm_num
    have hfE0 : 0 ≤ francScore code Lang.en := by
      by_cases h : code = "eng" <;> simp [francScore, h] <;> norm_num
    have hHE : okScore code (joinSpace ws) (joinSpace (ws.map toLowerStr)) Lang.hi <
        okScore code (joinSpace ws) (joinSpace (ws.map toLowerStr)) Lang.en := by
      unfold okScore
      rw [hbH]
      have h25 : (2:ℚ)/5 < 26/10 := by norm_num
      linarith [hbE26, hfH, hfE0]
    have hRE : okScore code (joinSpace ws) (joinSpace (ws.map toLowerStr)) Lang.raj <
        okScore code (joinSpace ws) (joinSpace (ws.map toLowerStr)) Lang.en := by
      unfold okScore
      rw [hbR, show francScore code Lang.raj = 0 from rfl]
      linarith [hbE26, hfE0]
    have hconf : 1/5 < min (okScore code (joinSpace ws) (joinSpace (ws.map toLowerStr))
        Lang.en / 10) 1 := by
      apply lt_min
      · have : 26/10 ≤ okScore code (joinSpace ws) (joinSpace (ws.map toLowerStr)) Lang.en := by
          unfold okScore
          linarith [hbE26, hfE0]
        linarith
      · norm_num
    have hne_low : ¬(okPrimary code (joinSpace ws)
        (jsTrim (toLowerStr (joinSpace ws)))).2 < 1/5 := by
      rw [hclean, okPrimary_first code (joinSpace ws) (joinSpace (ws.map toLowerStr)) hHE hRE]
      exact not_lt.mpr (le_of_lt hconf)
    rw [detectLanguage_ok_result code (joinSpace ws) hne_trim hne_low]
    rw [hclean, okPrimary_first code (joinSpace ws) (joinSpace (ws.map toLowerStr)) hHE hRE]
    exact ⟨rfl, hconf⟩
  | err =>
    rw [detectLanguage_err_result (joinSpace ws) hne_trim, hclean]
    have hyx : (Lang.hi, baseScore (joinSpace ws) (joinSpace (ws.map toLowerStr)) Lang.hi).2 <
        (Lang.en, baseScore (joinSpace ws) (joinSpace (ws.map toLowerStr)) Lang.en).2 := by
      simp only
      rw [hbH]
      linarith [hbE26]
    have hzx : (Lang.raj, baseScore (joinSpace ws) (joinSpace (ws.map toLowerStr)) Lang.raj).2 <
        (Lang.en, baseScore (joinSpace ws) (joinSpace (ws.map toLowerStr)) Lang.en).2 := by
      simp only
      rw [hbR]
      linarith [hbE26]
    rw [reduceMax3_first _ _ _ hyx hzx]
    refine ⟨rfl, ?_⟩
    apply lt_min
    · simp only
      linarith [hbE26]
    · norm_num

end CollegePortal

namespace CollegePortal

/-- C6: a message consisting only of words from one language's keyword
list, containing at least two distinct keywords of that language, is
detected as that language with confidence strictly above 0.2 — on both
the external-hint path (for every hint code) and the hint-failure
path. -/
theorem c6_keyword_message_detected (fo : FrancOutcome) (L : Lang) (ws : List String)
    (hws : ∀ w ∈ ws, w ∈ keywordsOf L) (k1 k2 : String)
    (h1 : k1 ∈ ws) (h2 : k2 ∈ ws) (hne : k1 ≠ k2) :
    (detectLanguage fo (joinSpace ws)).language = L ∧
    1/5 < (detectLanguage fo (joinSpace ws)).confidence := by
  cases L with
  | en => exact c6_detect_en fo ws hws k1 k2 h1 h2 hne
  | hi => exact c6_detect_hi fo ws hws k1 k2 h1 h2 hne
  | raj => exact c6_detect_raj fo ws hws k1 k2 h1 h2 hne

/-- C6 witness: the two-word Rajasthani keyword message survives even
an adversarial "eng" hint. -/
theorem c6_keyword_message_detected_witness :
    (detectLanguage (FrancOutcome.ok "eng") (joinSpace ["थारो", "राजस्थान"])).language =
      Lang.raj ∧
    1/5 < (detectLanguage (FrancOutcome.ok "eng") (joinSpace ["थारो", "राजस्थान"])).confidence :=
  c6_keyword_message_detected (FrancOutcome.ok "eng") Lang.raj ["थारो", "राजस्थान"]
    (by decide) "थारो" "राजस्थान" (by decide) (by decide) (by decide)

end CollegePortal
